import Mathlib

/-!
# Verification of the ccusage usage-aggregation engine

A shallow embedding of `src/ccusage-service.ts` (the Usage Aggregation
Engine of the ccusage-vscode repository) together with proofs about it.

Modelling conventions:
* JavaScript numbers are modelled as exact rationals (`ℚ`); the token-count
  and price arithmetic the claims are about is exact at these magnitudes.
* A JSON field that may be absent (or hold a non-numeric / non-string
  value where the code checks the type) is an `Option`.
* Timestamps (`new Date(...)`) are modelled by their epoch-millisecond
  value as a rational; a record's `Option ℚ` timestamp is the result of
  `parseTimestamp`: `some t` when one of the recognised fields parses.
* Filesystem and environment access (`path.resolve`, `fs.access`,
  `process.env`, `os.homedir`) are passed in as explicit function and
  value parameters; `path.join(a, b)` is modelled as `a ++ "/" ++ b`.
-/

namespace Ccusage

/-- `asPositiveNumber` from the source: a finite number strictly greater
than zero is kept, everything else collapses to `0`. -/
def asPositiveNumber (value : Option ℚ) : ℚ :=
  match value with
  | some v => if 0 < v then v else 0
  | none => 0

/-- A whitespace character, for the purpose of JS `String.prototype.trim`. -/
def isWsChar (c : Char) : Bool := c = ' ' || c = '\t' || c = '\n' || c = '\r'

/-- JS `String.prototype.trim`, over the character list (restricted to the
common whitespace characters). -/
def trimStr (s : String) : String :=
  ⟨((s.data.dropWhile isWsChar).reverse.dropWhile isWsChar).reverse⟩

/-- Lower-case one ASCII character, for JS `String.prototype.toLowerCase`. -/
def charToLower (c : Char) : Char :=
  if 'A' ≤ c ∧ c ≤ 'Z' then Char.ofNat (c.toNat + 32) else c

/-- JS `String.prototype.toLowerCase` (restricted to ASCII, which covers
every model id in the pricing and alias tables). -/
def strToLower (s : String) : String := ⟨s.data.map charToLower⟩

/-- `split` at a separator character, with JS `String.prototype.split`
semantics (the empty string yields `[""]`, adjacent separators yield
empty segments). -/
def splitOnChar (sep : Char) : List Char → List (List Char)
  | [] => [[]]
  | c :: rest =>
    match splitOnChar sep rest with
    | [] => [[]]
    | grp :: grps => if c = sep then [] :: grp :: grps else (c :: grp) :: grps

/-- JS `value.split(',')`. -/
def splitCommas (s : String) : List String :=
  (splitOnChar ',' s.data).map fun l => ⟨l⟩

/-- `RawCodexUsage` / `TokenUsageDelta` from the source. -/
structure RawCodexUsage where
  inputTokens : ℚ
  cachedInputTokens : ℚ
  outputTokens : ℚ
  reasoningOutputTokens : ℚ
  totalTokens : ℚ
  deriving DecidableEq

@[ext] theorem RawCodexUsage.ext' {a b : RawCodexUsage}
    (h1 : a.inputTokens = b.inputTokens)
    (h2 : a.cachedInputTokens = b.cachedInputTokens)
    (h3 : a.outputTokens = b.outputTokens)
    (h4 : a.reasoningOutputTokens = b.reasoningOutputTokens)
    (h5 : a.totalTokens = b.totalTokens) : a = b := by
  cases a; cases b; simp_all

/-- The raw JSON shape of a `last_token_usage` / `total_token_usage`
object, holding the numeric fields the source reads. -/
structure UsageJson where
  input_tokens : Option ℚ
  cached_input_tokens : Option ℚ
  cache_read_input_tokens : Option ℚ
  output_tokens : Option ℚ
  reasoning_output_tokens : Option ℚ
  total_tokens : Option ℚ
  deriving DecidableEq

/-- `normalizeCodexUsage` from the source.  `none` models a value that is
absent or not an object. -/
def normalizeCodexUsage (value : Option UsageJson) : Option RawCodexUsage :=
  match value with
  | none => none
  | some record =>
    let inputTokens := asPositiveNumber record.input_tokens
    let cachedTokens :=
      asPositiveNumber (record.cached_input_tokens.orElse fun _ => record.cache_read_input_tokens)
    let outputTokens := asPositiveNumber record.output_tokens
    let reasoningTokens := asPositiveNumber record.reasoning_output_tokens
    let totalTokens := asPositiveNumber record.total_tokens
    let normalisedTotal := if 0 < totalTokens then totalTokens else inputTokens + outputTokens
    some {
      inputTokens := inputTokens
      cachedInputTokens := min cachedTokens inputTokens
      outputTokens := outputTokens
      reasoningOutputTokens := reasoningTokens
      totalTokens := normalisedTotal
    }

/-- `subtractCodexUsage` from the source: component-wise
`max(0, current - previous)` against the last cumulative snapshot. -/
def subtractCodexUsage (current : RawCodexUsage) (previous : Option RawCodexUsage) :
    RawCodexUsage :=
  match previous with
  | none => current
  | some prev =>
    { inputTokens := max 0 (current.inputTokens - prev.inputTokens)
      cachedInputTokens := max 0 (current.cachedInputTokens - prev.cachedInputTokens)
      outputTokens := max 0 (current.outputTokens - prev.outputTokens)
      reasoningOutputTokens := max 0 (current.reasoningOutputTokens - prev.reasoningOutputTokens)
      totalTokens := max 0 (current.totalTokens - prev.totalTokens) }

/-- `addUsage` from the source, as a pure function. -/
def addUsage (target delta : RawCodexUsage) : RawCodexUsage :=
  { inputTokens := target.inputTokens + delta.inputTokens
    cachedInputTokens := target.cachedInputTokens + delta.cachedInputTokens
    outputTokens := target.outputTokens + delta.outputTokens
    reasoningOutputTokens := target.reasoningOutputTokens + delta.reasoningOutputTokens
    totalTokens := target.totalTokens + delta.totalTokens }

/-- `createEmptyUsage` from the source. -/
def createEmptyUsage : RawCodexUsage :=
  { inputTokens := 0
    cachedInputTokens := 0
    outputTokens := 0
    reasoningOutputTokens := 0
    totalTokens := 0 }

/-- `isUsageEmpty` from the source. -/
def isUsageEmpty (usage : RawCodexUsage) : Bool :=
  usage.inputTokens == 0
    && usage.cachedInputTokens == 0
    && usage.outputTokens == 0
    && usage.reasoningOutputTokens == 0
    && usage.totalTokens == 0

/-- `ModelPricing` from the source. -/
structure ModelPricing where
  inputCostPerMToken : ℚ
  cachedInputCostPerMToken : ℚ
  outputCostPerMToken : ℚ
  deriving DecidableEq

/-- `CODEX_MODEL_PRICING` from the source, as a lookup function. -/
def CODEX_MODEL_PRICING (key : String) : Option ModelPricing :=
  if key = "gpt-5" then
    some { inputCostPerMToken := 1.25, cachedInputCostPerMToken := 0.125, outputCostPerMToken := 10 }
  else if key = "gpt-5-mini" then
    some { inputCostPerMToken := 0.6, cachedInputCostPerMToken := 0.06, outputCostPerMToken := 2 }
  else if key = "gpt-4.1" then
    some { inputCostPerMToken := 5, cachedInputCostPerMToken := 0.5, outputCostPerMToken := 15 }
  else if key = "gpt-4.1-mini" then
    some { inputCostPerMToken := 1, cachedInputCostPerMToken := 0.1, outputCostPerMToken := 4 }
  else none

/-- `CODEX_MODEL_ALIASES` from the source, as a lookup function. -/
def CODEX_MODEL_ALIASES (key : String) : Option String :=
  if key = "gpt-5-codex" then some "gpt-5"
  else if key = "gpt-5o" then some "gpt-5"
  else if key = "gpt-5-mini-codex" then some "gpt-5-mini"
  else if key = "gpt-4.1-preview" then some "gpt-4.1"
  else none

/-- `lookupCodexPricing` from the source: alias table on the lowercased
id, then the pricing table on the lowercased id, then the raw id. -/
def lookupCodexPricing (model : String) : Option ModelPricing :=
  let lower := strToLower model
  match CODEX_MODEL_ALIASES lower with
  | some aliasTarget =>
    match CODEX_MODEL_PRICING aliasTarget with
    | some pricing => some pricing
    | none => (CODEX_MODEL_PRICING lower).orElse fun _ => CODEX_MODEL_PRICING model
  | none => (CODEX_MODEL_PRICING lower).orElse fun _ => CODEX_MODEL_PRICING model

/-- `MILLION` from the source. -/
def MILLION : ℚ := 1000000

/-- `calculateCostUSD` from the source. -/
def calculateCostUSD (usage : RawCodexUsage) (pricing : ModelPricing) : ℚ :=
  let inputCost := (usage.inputTokens - usage.cachedInputTokens) / MILLION * pricing.inputCostPerMToken
  let cachedCost := usage.cachedInputTokens / MILLION * pricing.cachedInputCostPerMToken
  let outputCost := usage.outputTokens / MILLION * pricing.outputCostPerMToken
  inputCost + cachedCost + outputCost

/-- Keep a candidate model the way `extractCodexModel` does: it must be a
string whose trimmed form is non-empty, and the trimmed form is returned. -/
def pickModelString (candidate : Option String) : Option String :=
  match candidate with
  | some s => if 0 < (trimStr s).length then some (trimStr s) else none
  | none => none

/-- The raw JSON shape of a token-count payload's `info` object: the model
candidates `extractCodexModel` inspects (`info.model`, `info.model_name`,
`info.metadata.model`) and the two usage reports. -/
structure CodexInfo where
  model : Option String
  model_name : Option String
  metadata_model : Option String
  last_token_usage : Option UsageJson
  total_token_usage : Option UsageJson
  deriving DecidableEq

/-- The raw JSON shape of a line's `payload` object: its `type`
discriminator, the model candidates (`payload.model`, `payload.model_name`,
`payload.metadata.model`) and the nested `info`. -/
structure CodexPayload where
  ptype : Option String
  model : Option String
  model_name : Option String
  metadata_model : Option String
  info : Option CodexInfo
  deriving DecidableEq

/-- One successfully JSON-parsed line of a Codex session file.
`rtype` is `parsed.type` when that field holds a string; `timestamp` is
the epoch-millisecond result of `parseTimestamp(parsed)` when one of the
recognised timestamp fields parses. -/
structure CodexRecord where
  rtype : Option String
  payload : Option CodexPayload
  timestamp : Option ℚ
  deriving DecidableEq

/-- `extractCodexModel` from the source, on a payload object (for token
events the source rebuilds `{...payload, info}` whose relevant fields
coincide with the payload itself): `model` / `model_name` first, then
`info.model` / `info.model_name` / `info.metadata.model`, then
`metadata.model`. -/
def extractCodexModel (source : CodexPayload) : Option String :=
  (pickModelString source.model).orElse fun _ =>
    (pickModelString source.model_name).orElse fun _ =>
      (match source.info with
        | some info =>
          (pickModelString info.model).orElse fun _ =>
            (pickModelString info.model_name).orElse fun _ =>
              pickModelString info.metadata_model
        | none => none).orElse fun _ =>
        pickModelString source.metadata_model

/-- `TokenUsageEvent` from the source. -/
structure TokenUsageEvent where
  timestamp : ℚ
  model : Option String
  usage : RawCodexUsage
  isFallbackModel : Bool
  deriving DecidableEq

/-- The per-file state `parseCodexSession` threads across lines. -/
structure CodexParseState where
  events : List TokenUsageEvent
  issues : List String
  previousTotals : Option RawCodexUsage
  currentModel : Option String
  currentModelIsFallback : Bool
  legacyFallbackUsed : Bool
  deriving DecidableEq

/-- Initial state of `parseCodexSession`'s loop. -/
def initCodexParseState : CodexParseState :=
  { events := []
    issues := []
    previousTotals := none
    currentModel := none
    currentModelIsFallback := false
    legacyFallbackUsed := false }

/-- Diagnostic recorded for a line that fails JSON parsing (the source
interpolates the JS error text; the fixed prefix is kept here). -/
def invalidJsonIssue : String := "Invalid JSON line"

/-- Diagnostic recorded once per file when the hard-coded fallback model
was used. -/
def legacyFallbackIssue : String :=
  "Legacy session lacked model metadata; applied fallback model gpt-5."

/-- The `info.last_token_usage` object of a line, when present. -/
def lineLastJson (r : CodexRecord) : Option UsageJson :=
  (r.payload.bind fun p => p.info).bind fun i => i.last_token_usage

/-- The `info.total_token_usage` object of a line, when present. -/
def lineTotalJson (r : CodexRecord) : Option UsageJson :=
  (r.payload.bind fun p => p.info).bind fun i => i.total_token_usage

/-- The usage delta the loop derives for a token-count line:
`last_token_usage` when present, otherwise the clamped subtraction of
`total_token_usage` against the state's cumulative snapshot. -/
def tokenLineUsage (s : CodexParseState) (r : CodexRecord) : Option RawCodexUsage :=
  match normalizeCodexUsage (lineLastJson r) with
  | some u => some u
  | none =>
    match normalizeCodexUsage (lineTotalJson r) with
    | some t => some (subtractCodexUsage t s.previousTotals)
    | none => none

/-- `if (totalUsage) previousTotals = totalUsage` from the source: the
cumulative snapshot is updated whenever a cumulative report is present,
regardless of which form produced the event. -/
def updatePreviousTotals (s : CodexParseState) (r : CodexRecord) : CodexParseState :=
  match normalizeCodexUsage (lineTotalJson r) with
  | some t => { s with previousTotals := some t }
  | none => s

/-- The model-resolution and event-push tail of the loop body: an
explicitly extracted model wins and clears the fallback state, else the
carried model is used, else the hard-coded `gpt-5` fallback is applied. -/
def emitTokenEvent (s1 : CodexParseState) (ts : ℚ) (extractedModel : Option String)
    (u : RawCodexUsage) : CodexParseState :=
  match extractedModel with
  | some m =>
    { s1 with
        currentModel := some m
        currentModelIsFallback := false
        events := s1.events ++
          [{ timestamp := ts, model := some m, usage := u, isFallbackModel := false }] }
  | none =>
    match s1.currentModel with
    | some m =>
      { s1 with
          events := s1.events ++
            [{ timestamp := ts, model := some m, usage := u,
               isFallbackModel := s1.currentModelIsFallback }] }
    | none =>
      { s1 with
          currentModel := some "gpt-5"
          currentModelIsFallback := true
          legacyFallbackUsed := true
          events := s1.events ++
            [{ timestamp := ts, model := some "gpt-5", usage := u, isFallbackModel := true }] }

/-- One iteration of `parseCodexSession`'s line loop, translated branch
for branch from the source (`none` models a line whose JSON parse threw).
Note the source's statement order: the usage delta is computed against
the old snapshot, the snapshot is then updated, and only then are empty
deltas dropped. -/
def codexStep (s : CodexParseState) (line : Option CodexRecord) : CodexParseState :=
  match line with
  | none => { s with issues := s.issues ++ [invalidJsonIssue] }
  | some r =>
    if r.rtype = some "turn_context" then
      match r.payload.bind extractCodexModel with
      | some payloadModel =>
        { s with currentModel := some payloadModel, currentModelIsFallback := false }
      | none => s
    else if r.rtype = some "event_msg" then
      if (r.payload.bind fun p => p.ptype) = some "token_count" then
        match r.timestamp with
        | none => s
        | some ts =>
          let usage := tokenLineUsage s r
          let s1 := updatePreviousTotals s r
          match usage with
          | none => s1
          | some u =>
            if isUsageEmpty u then s1
            else emitTokenEvent s1 ts (r.payload.bind extractCodexModel) u
      else s
    else s

/-- The fold of `codexStep` over the file's lines. -/
def parseCodexGo (s : CodexParseState) : List (Option CodexRecord) → CodexParseState
  | [] => s
  | line :: rest => parseCodexGo (codexStep s line) rest

/-- Result type of `parseCodexSession`. -/
structure CodexParseResult where
  events : List TokenUsageEvent
  issues : List String
  deriving DecidableEq

/-- `parseCodexSession` from the source, over the file's already-split
non-blank lines (`none` = a line whose JSON parse failed). -/
def parseCodexSession (lines : List (Option CodexRecord)) : CodexParseResult :=
  let s := parseCodexGo initCodexParseState lines
  { events := s.events
    issues := s.issues ++ (if s.legacyFallbackUsed then [legacyFallbackIssue] else []) }

/-- `ClaudeUsageEntry` from the source (timestamp in epoch milliseconds). -/
structure ClaudeUsageEntry where
  timestamp : ℚ
  inputTokens : ℚ
  outputTokens : ℚ
  cacheCreationInputTokens : ℚ
  cacheReadInputTokens : ℚ
  totalCostUSD : Option ℚ
  deriving DecidableEq

/-- The raw JSON shape of a Claude usage object (`message.usage` or the
top-level `usage`), holding the fields `extractClaudeUsage` reads. -/
structure ClaudeUsageJson where
  input_tokens : Option ℚ
  output_tokens : Option ℚ
  cache_creation_input_tokens : Option ℚ
  cache_read_input_tokens : Option ℚ
  total_cost_usd : Option ℚ
  cost_usd : Option ℚ
  usd_cost : Option ℚ
  deriving DecidableEq

/-- One successfully JSON-parsed line of a Claude transcript:
`timestamp` is the `parseTimestamp` result, `message_usage` is
`message.usage` and `usage` the top-level `usage` object. -/
structure ClaudeRecord where
  timestamp : Option ℚ
  message_usage : Option ClaudeUsageJson
  usage : Option ClaudeUsageJson
  deriving DecidableEq

/-- `extractClaudeUsage` from the source. -/
def extractClaudeUsage (record : ClaudeRecord) : Option ClaudeUsageEntry :=
  match record.timestamp with
  | none => none
  | some timestamp =>
    match record.message_usage.orElse fun _ => record.usage with
    | none => none
    | some usageCandidate =>
      let inputTokens := asPositiveNumber usageCandidate.input_tokens
      let outputTokens := asPositiveNumber usageCandidate.output_tokens
      let cacheCreationTokens := asPositiveNumber usageCandidate.cache_creation_input_tokens
      let cacheReadTokens := asPositiveNumber usageCandidate.cache_read_input_tokens
      let totalCostUSD := asPositiveNumber
        ((usageCandidate.total_cost_usd.orElse fun _ =>
          usageCandidate.cost_usd).orElse fun _ => usageCandidate.usd_cost)
      if inputTokens = 0 ∧ outputTokens = 0 ∧ cacheCreationTokens = 0
          ∧ cacheReadTokens = 0 ∧ totalCostUSD = 0 then
        none
      else
        some {
          timestamp := timestamp
          inputTokens := inputTokens
          outputTokens := outputTokens
          cacheCreationInputTokens := cacheCreationTokens
          cacheReadInputTokens := cacheReadTokens
          totalCostUSD := if totalCostUSD = 0 then none else some totalCostUSD }

/-- `parseClaudeTranscript` from the source, over the file's already-split
non-blank lines (`none` = a line whose JSON parse failed, which is only
warned about and skipped). -/
def parseClaudeTranscript (lines : List (Option ClaudeRecord)) (windowStart : ℚ) :
    List ClaudeUsageEntry :=
  lines.filterMap fun line =>
    match line with
    | none => none
    | some parsed =>
      match extractClaudeUsage parsed with
      | none => none
      | some usage => if usage.timestamp < windowStart then none else some usage

/-- `CodexModelUsageSummary` from the source. -/
structure CodexModelUsageSummary where
  model : String
  usage : RawCodexUsage
  costUSD : Option ℚ
  isFallbackModel : Bool
  deriving DecidableEq

/-- The value type of the `perModel` map in `loadCodexUsage`. -/
structure ModelAccum where
  usage : RawCodexUsage
  isFallback : Bool
  deriving DecidableEq

/-- `Map.get` on the insertion-ordered association list that models the
JS `Map`: the first entry with the given key. -/
def perModelGet (m : List (String × ModelAccum)) (key : String) : Option ModelAccum :=
  match m with
  | [] => none
  | (k, v) :: rest => if k = key then some v else perModelGet rest key

/-- `Map.set`: replace the (first) entry with the given key in place, or
append a new entry — preserving JS `Map` insertion order. -/
def perModelSet (m : List (String × ModelAccum)) (key : String) (value : ModelAccum) :
    List (String × ModelAccum) :=
  match m with
  | [] => [(key, value)]
  | (k, v) :: rest =>
    if k = key then (k, value) :: rest else (k, v) :: perModelSet rest key value

/-- One iteration of the aggregation loop of `loadCodexUsage`: add the
event's delta to the grand total and, when the event carries a model, to
that model's group (OR-ing the fallback flag). -/
def perModelStep (acc : RawCodexUsage × List (String × ModelAccum))
    (event : TokenUsageEvent) : RawCodexUsage × List (String × ModelAccum) :=
  let aggregate := addUsage acc.1 event.usage
  match event.model with
  | none => (aggregate, acc.2)
  | some m =>
    let existing := (perModelGet acc.2 m).getD { usage := createEmptyUsage, isFallback := false }
    (aggregate,
      perModelSet acc.2 m
        { usage := addUsage existing.usage event.usage
          isFallback := existing.isFallback || event.isFallbackModel })

/-- The aggregation loop of `loadCodexUsage` over today's events: the
grand total and the per-model map. -/
def perModelFold (events : List TokenUsageEvent) :
    RawCodexUsage × List (String × ModelAccum) :=
  events.foldl perModelStep (createEmptyUsage, [])

/-- The issue string `loadCodexUsage` records for an unpriced model. -/
def pricingIssue (model : String) : String := "Pricing not found for model " ++ model

/-- The summary `loadCodexUsage` builds for one `perModel` entry. -/
def buildModelSummary (entry : String × ModelAccum) : CodexModelUsageSummary :=
  { model := entry.1
    usage := entry.2.usage
    costUSD := (lookupCodexPricing entry.1).map fun pricing =>
      calculateCostUSD entry.2.usage pricing
    isFallbackModel := entry.2.isFallback }

/-- The aggregation result of `loadCodexUsage` the claims are about. -/
structure CodexAggregate where
  totalTokens : ℚ
  costUSD : Option ℚ
  models : List CodexModelUsageSummary
  issues : List String
  deriving DecidableEq

/-- The JS stable sort `modelSummaries.sort((a, b) => b.usage.totalTokens -
a.usage.totalTokens)`: a stable sort that puts larger `totalTokens` first. -/
def sortSummaries (summaries : List CodexModelUsageSummary) : List CodexModelUsageSummary :=
  summaries.insertionSort fun a b => b.usage.totalTokens ≤ a.usage.totalTokens

/-- The per-model aggregation of `loadCodexUsage` (its lines 289–348),
applied to the events that survived the "today" filter; `issues0` is the
list of parse-time issues already collected.  The `Intl`-based date
filtering itself is outside the embedding: the claims about this stage
quantify over the already-filtered event list. -/
def codexAggregate (todaysEvents : List TokenUsageEvent) (issues0 : List String) :
    CodexAggregate :=
  let folded := perModelFold todaysEvents
  let modelSummaries := folded.2.map buildModelSummary
  let totalCost := (modelSummaries.filterMap fun s => s.costUSD).sum
  let newIssues := folded.2.filterMap fun entry =>
    if (lookupCodexPricing entry.1).isSome then none else some (pricingIssue entry.1)
  { totalTokens := folded.1.totalTokens
    costUSD :=
      if modelSummaries.all (fun s => s.costUSD.isSome) ∧ 0 < modelSummaries.length then
        some totalCost
      else none
    models := sortSummaries modelSummaries
    issues := issues0 ++ newIssues }

/-- First-occurrence deduplication, as `Array.from(new Set(...))`. -/
def dedupFirst (l : List String) : List String :=
  (l.foldl (fun acc s => if s ∈ acc then acc else acc ++ [s]) [])

/-- `resolveClaudeDataDirectories` from the source.  `resolve` models
`path.resolve`, `pathExists` the `fs.access` probe, `envRaw` the value of
`CLAUDE_CONFIG_DIR` and `home` the result of `os.homedir()`. -/
def resolveClaudeDataDirectories (resolve : String → String) (pathExists : String → Bool)
    (envRaw : Option String) (home : String) : List String :=
  let defaults := [home ++ "/.config/claude", home ++ "/.claude"].filter pathExists
  match envRaw.map trimStr with
  | some envValue =>
    if 0 < envValue.length then
      let envPaths := ((splitCommas envValue).map trimStr).filter fun s => 0 < s.length
      let directories := (envPaths.map resolve).filter pathExists
      if 0 < directories.length then directories else defaults
    else defaults
  | none => defaults

/-- `resolveCodexSessionDirectories` from the source.  `envRaw` is the
value of `CODEX_HOME`. -/
def resolveCodexSessionDirectories (resolve : String → String)
    (envRaw : Option String) (home : String) : List String :=
  let fromEnv :=
    match envRaw.map trimStr with
    | some envValue => if 0 < envValue.length then [resolve envValue ++ "/sessions"] else []
    | none => []
  dedupFirst (fromEnv ++ [home ++ "/.codex/sessions"])

/-- `Provider` from the source. -/
inductive Provider where
  | claude
  | codex
  deriving DecidableEq

/-- The name a provider is rendered with in composed error messages. -/
def providerName : Provider → String
  | Provider.claude => "claude"
  | Provider.codex => "codex"

/-- `ProviderMode` from the source. -/
inductive ProviderMode where
  | claude
  | codex
  | both
  | auto
  deriving DecidableEq

/-- `composeError` from the source (an `Error` is modelled by its
message string). -/
def composeError (errors : List (Provider × String)) (fallbackMessage : String) : String :=
  match errors with
  | [] => fallbackMessage
  | _ =>
    let detail := String.intercalate "; "
      (errors.map fun err => providerName err.1 ++ ": " ++ err.2)
    fallbackMessage ++ " (" ++ detail ++ ")"

/-- `UsageSummary` from the source, generic in the two providers' payloads. -/
structure UsageSummaryM (γ δ : Type) where
  claude : Option γ
  codex : Option δ
  errors : List (Provider × String)

/-- `CcusageService.getUsage` from the source.  Each provider loader's
outcome is passed in as an `Except` (its message string standing for the
thrown `Error`); the two loaders run concurrently in the source and each
failure is pushed onto `errors` — completion order is nondeterministic
there, modelled here as Claude first.  The returned `Except` is the
call's own success or thrown error. -/
def getUsage {γ δ : Type} (mode : ProviderMode) (claudeRes : Except String γ)
    (codexRes : Except String δ) : Except String (UsageSummaryM γ δ) :=
  let shouldLoadClaude := mode = ProviderMode.claude ∨ mode = ProviderMode.both
    ∨ mode = ProviderMode.auto
  let shouldLoadCodex := mode = ProviderMode.codex ∨ mode = ProviderMode.both
    ∨ mode = ProviderMode.auto
  let claudeData : Option γ := if shouldLoadClaude then claudeRes.toOption else none
  let codexData : Option δ := if shouldLoadCodex then codexRes.toOption else none
  let errors : List (Provider × String) :=
    (if shouldLoadClaude then
      match claudeRes with
      | Except.error e => [(Provider.claude, e)]
      | Except.ok _ => []
     else []) ++
    (if shouldLoadCodex then
      match codexRes with
      | Except.error e => [(Provider.codex, e)]
      | Except.ok _ => []
     else [])
  if mode = ProviderMode.claude ∧ claudeData.isNone then
    Except.error (composeError errors "Claude usage data is unavailable.")
  else if mode = ProviderMode.codex ∧ codexData.isNone then
    Except.error (composeError errors "Codex usage data is unavailable.")
  else if ¬shouldLoadClaude ∧ ¬shouldLoadCodex then
    Except.error "No provider selected for usage retrieval."
  else if claudeData.isNone ∧ codexData.isNone ∧ 0 < errors.length then
    Except.error (composeError errors "Failed to load usage data.")
  else
    Except.ok { claude := claudeData, codex := codexData, errors := errors }

/-- Modelled from the spec: the rate-limit extraction of the Codex
session parser is absent from the `src/` snapshot of this repository
(only its vitest fixtures and the `extension.ts` consumer refer to
`rateLimits`), so the raw JSON shape of one rate-limit window is taken
from the spec (§4.4) and the test fixtures: a used-percentage, a window
length in minutes, and a reset given either as seconds-from-now
(`resets_in_seconds`) or as an absolute timestamp (`resets_at`). -/
structure RateLimitWindowJson where
  used_percent : Option ℚ
  window_minutes : Option ℚ
  resets_in_seconds : Option ℚ
  resets_at : Option ℚ
  deriving DecidableEq

/-- Modelled from the spec: the `rate_limits` payload carries a primary
and a secondary window. -/
structure RateLimitsJson where
  primary : Option RateLimitWindowJson
  secondary : Option RateLimitWindowJson
  deriving DecidableEq

/-- Modelled from the spec: the derived `RateLimitWindow` value
(§3 data model). -/
structure RateLimitWindow where
  label : Option String
  usedPercent : Option ℚ
  remainingPercent : Option ℚ
  resetsInSeconds : Option ℚ
  deriving DecidableEq

/-- Modelled from the spec: windows are labeled by their minute length,
tolerating vendor jitter — ~300 minutes is "5h", ~10080 minutes is
"1 week" (spec §4.4 names 299–301 and 10079–10081 as the ranges to
tolerate). -/
def windowLabel (minutes : ℚ) : Option String :=
  if 299 ≤ minutes ∧ minutes ≤ 301 then some "5h"
  else if 10079 ≤ minutes ∧ minutes ≤ 10081 then some "1 week"
  else none

/-- Modelled from the spec: an absolute `resets_at` at or above this
magnitude is in milliseconds, below it in seconds (spec §4.4:
"disambiguated by magnitude"). -/
def resetsAtMillisThreshold : ℚ := 1000000000000

/-- Modelled from the spec: the reset countdown in seconds —
`resets_in_seconds` is used as-is; otherwise `resets_at` is an absolute
timestamp in seconds or milliseconds, disambiguated by magnitude, and
converted to seconds from `now` (an epoch-millisecond value). -/
def resolveResetsInSeconds (nowMs : ℚ) (w : RateLimitWindowJson) : Option ℚ :=
  match w.resets_in_seconds with
  | some s => some s
  | none =>
    match w.resets_at with
    | some t =>
      if resetsAtMillisThreshold ≤ t then some ((t - nowMs) / 1000)
      else some (t - nowMs / 1000)
    | none => none

/-- Modelled from the spec: clamp a percentage to [0, 100]. -/
def clampPercent (p : ℚ) : ℚ := max 0 (min 100 p)

/-- Modelled from the spec: derive one `RateLimitWindow` from its raw
telemetry — label from the minute length, `remainingPercent =
100 − usedPercent` clamped to [0, 100], reset resolved as above. -/
def buildRateLimitWindow (nowMs : ℚ) (w : RateLimitWindowJson) : RateLimitWindow :=
  { label := w.window_minutes.bind windowLabel
    usedPercent := w.used_percent
    remainingPercent := w.used_percent.map fun u => clampPercent (100 - u)
    resetsInSeconds := resolveResetsInSeconds nowMs w }

/-- Modelled from the spec: only the reading from the chronologically
latest qualifying event is kept — fold over the (timestamp, telemetry)
pairs keeping the greatest timestamp, later entries winning ties. -/
def latestRateLimits (events : List (ℚ × RateLimitsJson)) : Option (ℚ × RateLimitsJson) :=
  events.foldl
    (fun best e =>
      match best with
      | none => some e
      | some b => if b.1 ≤ e.1 then some e else some b)
    none

/-! ### Derived notions used in the statements -/

/-- Component-wise sum of a list of usage deltas (the value the running
`aggregate` of `loadCodexUsage` reaches, order-independently). -/
def sumUsage (l : List RawCodexUsage) : RawCodexUsage :=
  l.foldr addUsage createEmptyUsage

/-- Component-wise order on usage snapshots: monotone cumulative
counters are exactly the `usageLe`-chains. -/
def usageLe (a b : RawCodexUsage) : Prop :=
  a.inputTokens ≤ b.inputTokens
    ∧ a.cachedInputTokens ≤ b.cachedInputTokens
    ∧ a.outputTokens ≤ b.outputTokens
    ∧ a.reasoningOutputTokens ≤ b.reasoningOutputTokens
    ∧ a.totalTokens ≤ b.totalTokens

/-- All five fields of a usage value are non-negative. -/
def usageNonneg (u : RawCodexUsage) : Prop :=
  0 ≤ u.inputTokens ∧ 0 ≤ u.cachedInputTokens ∧ 0 ≤ u.outputTokens
    ∧ 0 ≤ u.reasoningOutputTokens ∧ 0 ≤ u.totalTokens

/-- A line that reaches the usage-extraction part of the parser loop: an
`event_msg` whose payload type is `token_count` and whose timestamp
parses. -/
def isTokenCountLine (r : CodexRecord) : Bool :=
  r.rtype == some "event_msg"
    && (r.payload.bind fun p => p.ptype) == some "token_count"
    && r.timestamp.isSome

/-- A line carries only cumulative telemetry: if it is a token-count
line, it has no `last_token_usage` and does have `total_token_usage`. -/
def cumulativeOnlyLine (line : Option CodexRecord) : Prop :=
  ∀ r, line = some r → isTokenCountLine r = true →
    lineLastJson r = none ∧ (lineTotalJson r).isSome = true

/-- The normalized cumulative snapshots reported by a file's token-count
lines, in file order. -/
def fileTotals (lines : List (Option CodexRecord)) : List RawCodexUsage :=
  lines.filterMap fun line =>
    match line with
    | none => none
    | some r =>
      if isTokenCountLine r then normalizeCodexUsage (lineTotalJson r) else none

/-! ### Concrete fixtures used by witnesses and counterexamples -/

/-- The `last_token_usage` object of the repository's vitest fixture. -/
def fixtureLastUsage : UsageJson :=
  { input_tokens := some 1000, cached_input_tokens := some 200, cache_read_input_tokens := none,
    output_tokens := some 1500, reasoning_output_tokens := some 0, total_tokens := some 2500 }

/-- The token-count event of the repository's vitest fixture (payload
model `gpt-5-mini`, delta-form usage). -/
def fixtureTokenEvent : CodexRecord :=
  { rtype := some "event_msg"
    payload := some
      { ptype := some "token_count", model := some "gpt-5-mini", model_name := none,
        metadata_model := none,
        info := some { model := none, model_name := none, metadata_model := none,
                       last_token_usage := some fixtureLastUsage, total_token_usage := none } }
    timestamp := some 1704110400000 }

/-- A cumulative-only usage report with the given input and total counts. -/
def cumUsageJson (i t : ℚ) : UsageJson :=
  { input_tokens := some i, cached_input_tokens := none, cache_read_input_tokens := none,
    output_tokens := none, reasoning_output_tokens := none, total_tokens := some t }

/-- A cumulative-only usage report with input, cached and total counts. -/
def cumUsageJsonC (i c t : ℚ) : UsageJson :=
  { input_tokens := some i, cached_input_tokens := some c, cache_read_input_tokens := none,
    output_tokens := none, reasoning_output_tokens := none, total_tokens := some t }

/-- A token-count line carrying only a cumulative report and no model
metadata. -/
def cumTokenLine (ts : ℚ) (j : UsageJson) : CodexRecord :=
  { rtype := some "event_msg"
    payload := some
      { ptype := some "token_count", model := none, model_name := none, metadata_model := none,
        info := some { model := none, model_name := none, metadata_model := none,
                       last_token_usage := none, total_token_usage := some j } }
    timestamp := some ts }

/-- A `turn_context` line carrying the given model. -/
def turnContextLine (m : String) : CodexRecord :=
  { rtype := some "turn_context"
    payload := some { ptype := none, model := some m, model_name := none, metadata_model := none,
                      info := none }
    timestamp := some 0 }

/-- A session whose first token-count event precedes any `turn_context`,
but where a model-bearing `turn_context` appears afterwards. -/
def sessionTurnCtxAfterFirst : List (Option CodexRecord) :=
  [some (cumTokenLine 1 (cumUsageJson 5 5)),
   some (turnContextLine "gpt-4.1"),
   some (cumTokenLine 2 (cumUsageJson 9 9))]

/-- A model-less cumulative-only session of two events in which the
cumulative cached counter grows by more than the input counter. -/
def sessionCachedJump : List (Option CodexRecord) :=
  [some (cumTokenLine 1 (cumUsageJsonC 10 0 10)),
   some (cumTokenLine 2 (cumUsageJsonC 10 10 10))]

/-- A model-less cumulative-only session of two events (used as a
monotone witness input). -/
def sessionCumulative : List (Option CodexRecord) :=
  [some (cumTokenLine 1 (cumUsageJson 5 5)),
   some (cumTokenLine 2 (cumUsageJson 9 9))]

/-- A Claude transcript line whose timestamp is exactly the window start
used in the boundary counterexample. -/
def boundaryClaudeRecord : ClaudeRecord :=
  { timestamp := some 100
    message_usage := some
      { input_tokens := some 1200, output_tokens := some 340,
        cache_creation_input_tokens := some 10, cache_read_input_tokens := some 5,
        total_cost_usd := some 0.42, cost_usd := none, usd_cost := none }
    usage := none }

/-- The entry `extractClaudeUsage` produces for `boundaryClaudeRecord`. -/
def boundaryClaudeEntry : ClaudeUsageEntry :=
  { timestamp := 100, inputTokens := 1200, outputTokens := 340,
    cacheCreationInputTokens := 10, cacheReadInputTokens := 5, totalCostUSD := some 0.42 }

/-- Two today-events, one on a priced model and one on an unpriced one
(the spec's scenario of §8). -/
def mixedPricingEvents : List TokenUsageEvent :=
  [{ timestamp := 1, model := some "gpt-5-mini",
     usage := { inputTokens := 1000, cachedInputTokens := 200, outputTokens := 1500,
                reasoningOutputTokens := 0, totalTokens := 2500 }, isFallbackModel := false },
   { timestamp := 2, model := some "made-up-model-9",
     usage := { inputTokens := 10, cachedInputTokens := 0, outputTokens := 5,
                reasoningOutputTokens := 0, totalTokens := 15 }, isFallbackModel := false }]

/-! ## Helper lemmas -/

theorem addUsage_empty_left (u : RawCodexUsage) : addUsage createEmptyUsage u = u := by
  ext <;> simp [addUsage, createEmptyUsage]

theorem addUsage_empty_right (u : RawCodexUsage) : addUsage u createEmptyUsage = u := by
  ext <;> simp [addUsage, createEmptyUsage]

theorem sumUsage_nil : sumUsage [] = createEmptyUsage := rfl

theorem sumUsage_cons (u : RawCodexUsage) (l : List RawCodexUsage) :
    sumUsage (u :: l) = addUsage u (sumUsage l) := rfl

theorem foldr_addUsage_init (l : List RawCodexUsage) (a : RawCodexUsage) :
    l.foldr addUsage a = addUsage (sumUsage l) a := by
  induction l with
  | nil => simp [sumUsage_nil, addUsage_empty_left]
  | cons u l ih =>
    simp only [List.foldr_cons, ih, sumUsage_cons]
    ext <;> simp [sumUsage_cons, addUsage] <;> ring

theorem sumUsage_append_single (l : List RawCodexUsage) (u : RawCodexUsage) :
    sumUsage (l ++ [u]) = addUsage (sumUsage l) u := by
  show (l ++ [u]).foldr addUsage createEmptyUsage = _
  rw [List.foldr_append, List.foldr_cons, List.foldr_nil, addUsage_empty_right,
    foldr_addUsage_init]

theorem isUsageEmpty_iff (u : RawCodexUsage) :
    isUsageEmpty u = true ↔ u = createEmptyUsage := by
  constructor
  · intro h
    simp only [isUsageEmpty, Bool.and_eq_true, beq_iff_eq] at h
    ext <;> simp [createEmptyUsage, h.1.1.1.1, h.1.1.1.2, h.1.1.2, h.1.2, h.2]
  · intro h
    subst h
    simp [isUsageEmpty, createEmptyUsage]

theorem strAppend_cancel_left {a b c : String} (h : a ++ b = a ++ c) : b = c := by
  have hd : a.data ++ b.data = a.data ++ c.data := by
    have := congrArg String.data h
    simpa [String.data_append] using this
  have hbc : b.data = c.data := List.append_cancel_left hd
  cases b; cases c; exact congrArg String.mk hbc

theorem dedupFirst_go_mem (l : List String) (acc : List String) (x : String) :
    x ∈ l.foldl (fun acc s => if s ∈ acc then acc else acc ++ [s]) acc
      ↔ x ∈ acc ∨ x ∈ l := by
  induction l generalizing acc with
  | nil => simp
  | cons a l ih =>
    simp only [List.foldl_cons]
    by_cases ha : a ∈ acc
    · rw [if_pos ha, ih]
      constructor
      · rintro (h | h)
        · exact Or.inl h
        · exact Or.inr (List.mem_cons_of_mem _ h)
      · rintro (h | h)
        · exact Or.inl h
        · rcases List.mem_cons.mp h with rfl | h
          · exact Or.inl ha
          · exact Or.inr h
    · rw [if_neg ha, ih]
      simp only [List.mem_append, List.mem_singleton, List.mem_cons]
      tauto

theorem mem_dedupFirst (l : List String) (x : String) : x ∈ dedupFirst l ↔ x ∈ l := by
  unfold dedupFirst
  rw [dedupFirst_go_mem]
  simp

theorem mem_parseClaudeTranscript {lines : List (Option ClaudeRecord)} {ws : ℚ}
    {u : ClaudeUsageEntry} :
    u ∈ parseClaudeTranscript lines ws
      ↔ ∃ r, some r ∈ lines ∧ extractClaudeUsage r = some u ∧ ¬u.timestamp < ws := by
  unfold parseClaudeTranscript
  rw [List.mem_filterMap]
  constructor
  · rintro ⟨line, hline, hf⟩
    cases line with
    | none => simp at hf
    | some r =>
      cases hex : extractClaudeUsage r with
      | none => simp [hex] at hf
      | some v =>
        simp only [hex] at hf
        by_cases hlt : v.timestamp < ws
        · simp [hlt] at hf
        · simp only [if_neg hlt, Option.some.injEq] at hf
          subst hf
          exact ⟨r, hline, hex, hlt⟩
  · rintro ⟨r, hr, hex, hlt⟩
    exact ⟨some r, hr, by simp [hex, hlt]⟩

/-! ## C5 — Claude trailing-window boundary -/

/-- C5 counterexample: the claim states that a record whose timestamp
equals `windowStart` is excluded; on the code a record exactly at the
window start survives the strict `<` filter and is included. -/
theorem claude_window_boundary_counterexample :
    parseClaudeTranscript [some boundaryClaudeRecord] 100 = [boundaryClaudeEntry]
      ∧ boundaryClaudeEntry.timestamp = 100
      ∧ boundaryClaudeEntry ∈ parseClaudeTranscript [some boundaryClaudeRecord] 100 := by
  have h : parseClaudeTranscript [some boundaryClaudeRecord] 100 = [boundaryClaudeEntry] := by
    norm_num +decide [parseClaudeTranscript, extractClaudeUsage, asPositiveNumber,
      boundaryClaudeRecord, boundaryClaudeEntry, List.filterMap_cons]
  refine ⟨h, rfl, ?_⟩
  rw [h]
  exact List.mem_singleton.mpr rfl

/-- C5 (amended): every record with timestamp strictly before
`windowStart` is excluded from the parse result, and a record whose
timestamp is at or after `windowStart` — in particular exactly at
`windowStart` — is included: the strict `<` comparison keeps the
boundary record. -/
theorem claude_window_filter_strict (lines : List (Option ClaudeRecord)) (ws : ℚ) :
    (∀ e ∈ parseClaudeTranscript lines ws, ws ≤ e.timestamp)
    ∧ (∀ r, some r ∈ lines → ∀ u, extractClaudeUsage r = some u →
        ws ≤ u.timestamp → u ∈ parseClaudeTranscript lines ws) := by
  constructor
  · intro e he
    rcases mem_parseClaudeTranscript.mp he with ⟨_, _, _, hlt⟩
    exact not_lt.mp hlt
  · intro r hr u hex hge
    exact mem_parseClaudeTranscript.mpr ⟨r, hr, hex, not_lt.mpr hge⟩

/-- C5 witness: the amended theorem applied to the boundary fixture. -/
theorem claude_window_filter_strict_witness :
    boundaryClaudeEntry ∈ parseClaudeTranscript [some boundaryClaudeRecord] 100 :=
  (claude_window_filter_strict [some boundaryClaudeRecord] 100).2 boundaryClaudeRecord
    (List.mem_singleton.mpr rfl) boundaryClaudeEntry
    (by norm_num +decide [extractClaudeUsage, asPositiveNumber, boundaryClaudeRecord,
      boundaryClaudeEntry])
    (by norm_num [boundaryClaudeEntry])

/-! ## C7 — directory-resolution asymmetry -/

/-- C7: Claude's override fully replaces the platform defaults whenever
at least one override segment resolves to an existing directory, while
Codex always also includes the platform default session directory next
to the override-derived one, deduplicated. -/
theorem provider_directory_resolution_asymmetry
    (resolve : String → String) (pathExists : String → Bool) (env home : String)
    (henv : 0 < (trimStr env).length) :
    (((((splitCommas (trimStr env)).map trimStr).filter (fun s => 0 < s.length)).map
          resolve).filter pathExists ≠ [] →
        resolveClaudeDataDirectories resolve pathExists (some env) home =
          ((((splitCommas (trimStr env)).map trimStr).filter (fun s => 0 < s.length)).map
            resolve).filter pathExists)
    ∧ resolveCodexSessionDirectories resolve (some env) home
        = dedupFirst [resolve (trimStr env) ++ "/sessions", home ++ "/.codex/sessions"]
    ∧ (home ++ "/.codex/sessions") ∈ resolveCodexSessionDirectories resolve (some env) home
    ∧ (resolve (trimStr env) ++ "/sessions")
        ∈ resolveCodexSessionDirectories resolve (some env) home := by
  refine ⟨?_, ?_, ?_, ?_⟩
  · intro hne
    unfold resolveClaudeDataDirectories
    simp only [Option.map_some']
    rw [if_pos henv, if_pos (List.length_pos.mpr hne)]
  · unfold resolveCodexSessionDirectories
    simp only [Option.map_some']
    rw [if_pos henv]
    rfl
  · unfold resolveCodexSessionDirectories
    simp only [Option.map_some']
    rw [if_pos henv]
    exact (mem_dedupFirst _ _).mpr (by simp)
  · unfold resolveCodexSessionDirectories
    simp only [Option.map_some']
    rw [if_pos henv]
    exact (mem_dedupFirst _ _).mpr (by simp)

/-- C7 witness: concrete environment in which the Claude override names
one existing directory and the Codex override is set; the override
replaces the Claude defaults while the Codex default stays present. -/
theorem provider_directory_resolution_asymmetry_witness :
    resolveClaudeDataDirectories (fun s => s) (fun s => s == "/data/claude")
        (some "/data/claude") "/home/u" = ["/data/claude"]
      ∧ ("/home/u/.codex/sessions")
          ∈ resolveCodexSessionDirectories (fun s => s) (some "/data/codex") "/home/u"
      ∧ ("/data/codex/sessions")
          ∈ resolveCodexSessionDirectories (fun s => s) (some "/data/codex") "/home/u" := by
  have h1 := provider_directory_resolution_asymmetry (fun s => s)
    (fun s => s == "/data/claude") "/data/claude" "/home/u" (by decide)
  have h2 := provider_directory_resolution_asymmetry (fun s => s)
    (fun s => s == "/data/claude") "/data/codex" "/home/u" (by decide)
  refine ⟨?_, ?_, ?_⟩
  · have := h1.1 (by decide)
    rw [this]
    decide
  · exact h2.2.2.1
  · have := h2.2.2.2
    simpa using this

/-! ## C8 — cost formula and priced round trip -/

/-- C8: `calculateCostUSD` is exactly the closed-form pricing formula;
the pricing lookup normalizes aliases case-insensitively; and
aggregating the repository's single-file, single-event fixture yields
exactly the closed-form value for `gpt-5-mini`. -/
theorem codex_cost_formula_round_trip :
    (∀ (usage : RawCodexUsage) (pricing : ModelPricing),
      calculateCostUSD usage pricing =
        (usage.inputTokens - usage.cachedInputTokens) / 1000000 * pricing.inputCostPerMToken
          + usage.cachedInputTokens / 1000000 * pricing.cachedInputCostPerMToken
          + usage.outputTokens / 1000000 * pricing.outputCostPerMToken)
    ∧ lookupCodexPricing "GPT-5-Codex" = CODEX_MODEL_PRICING "gpt-5"
    ∧ lookupCodexPricing "Gpt-5-Mini" = CODEX_MODEL_PRICING "gpt-5-mini"
    ∧ (codexAggregate (parseCodexSession [some fixtureTokenEvent]).events []).costUSD
        = some ((1000 - 200) / 1000000 * (6 / 10) + 200 / 1000000 * (6 / 100)
            + 1500 / 1000000 * 2) := by
  refine ⟨fun usage pricing => rfl, ?_, ?_, ?_⟩
  · norm_num +decide [lookupCodexPricing, strToLower, charToLower, CODEX_MODEL_ALIASES,
      CODEX_MODEL_PRICING]
  · norm_num +decide [lookupCodexPricing, strToLower, charToLower, CODEX_MODEL_ALIASES,
      CODEX_MODEL_PRICING]
  · norm_num +decide [parseCodexSession, parseCodexGo, codexStep, initCodexParseState,
      tokenLineUsage, updatePreviousTotals, emitTokenEvent,
      normalizeCodexUsage, lineLastJson, lineTotalJson, asPositiveNumber, isUsageEmpty,
      extractCodexModel, pickModelString, trimStr, isWsChar, fixtureTokenEvent, fixtureLastUsage,
      codexAggregate, perModelFold, perModelStep, perModelGet, perModelSet, addUsage, createEmptyUsage,
      buildModelSummary, lookupCodexPricing, strToLower, charToLower, CODEX_MODEL_ALIASES,
      CODEX_MODEL_PRICING, calculateCostUSD, MILLION, sortSummaries, pricingIssue, min_def,
      List.filterMap_cons, Function.comp]

/-! ## C2 — rate-limit extraction (modelled from the spec) -/

theorem latestRateLimits_go (events : List (ℚ × RateLimitsJson)) :
    ∀ (best : Option (ℚ × RateLimitsJson)) (e : ℚ × RateLimitsJson),
      events.foldl
        (fun best e => match best with
          | none => some e
          | some b => if b.1 ≤ e.1 then some e else some b) best = some e →
      (best = some e ∨ e ∈ events) ∧ (∀ x ∈ events, x.1 ≤ e.1)
        ∧ (∀ b, best = some b → b.1 ≤ e.1) := by
  induction events with
  | nil =>
    intro best e h
    simp only [List.foldl_nil] at h
    subst h
    exact ⟨Or.inl rfl, by simp,
      fun b hb => le_of_eq (congrArg Prod.fst (Eq.symm (by simpa using hb)))⟩
  | cons a l ih =>
    intro best e h
    simp only [List.foldl_cons] at h
    cases best with
    | none =>
      have h' := h
      rcases ih (some a) e h' with ⟨hmem, hall, hbd⟩
      have hae : a.1 ≤ e.1 := hbd a rfl
      refine ⟨?_, ?_, fun b hb => by simp at hb⟩
      · rcases hmem with hm | hm
        · have : a = e := by simpa using hm
          exact Or.inr (this ▸ List.mem_cons_self a l)
        · exact Or.inr (List.mem_cons_of_mem _ hm)
      · intro x hx
        rcases List.mem_cons.mp hx with rfl | hx
        · exact hae
        · exact hall x hx
    | some b =>
      by_cases hba : b.1 ≤ a.1
      · rcases ih (some a) e (by simpa [hba] using h) with ⟨hmem, hall, hbd⟩
        have hae : a.1 ≤ e.1 := hbd a rfl
        refine ⟨?_, ?_, ?_⟩
        · rcases hmem with hm | hm
          · have : a = e := by simpa using hm
            exact Or.inr (this ▸ List.mem_cons_self a l)
          · exact Or.inr (List.mem_cons_of_mem _ hm)
        · intro x hx
          rcases List.mem_cons.mp hx with rfl | hx
          · exact hae
          · exact hall x hx
        · intro b0 hb0
          have hb0' : b = b0 := by simpa using hb0
          subst hb0'
          exact le_trans hba hae
      · rcases ih (some b) e (by simpa [hba] using h) with ⟨hmem, hall, hbd⟩
        have hbe : b.1 ≤ e.1 := hbd b rfl
        have hae : a.1 ≤ e.1 := le_trans (le_of_lt (lt_of_not_le hba)) hbe
        refine ⟨?_, ?_, ?_⟩
        · rcases hmem with hm | hm
          · exact Or.inl hm
          · exact Or.inr (List.mem_cons_of_mem _ hm)
        · intro x hx
          rcases List.mem_cons.mp hx with rfl | hx
          · exact hae
          · exact hall x hx
        · intro b0 hb0
          have hb0' : b = b0 := by simpa using hb0
          subst hb0'
          exact hbe

/-- C2 (modelled from the spec — the rate-limit extraction code is not
part of the `src/` snapshot): labels tolerate jitter around 300 and
10080 minutes; `remainingPercent` is `100 − usedPercent` clamped to
[0, 100]; resets are taken from `resets_in_seconds` when present,
otherwise from `resets_at` as milliseconds or seconds disambiguated by
magnitude; and only the chronologically latest qualifying reading is
kept. -/
theorem codex_rate_limit_extraction (nowMs : ℚ) :
    (∀ m : ℚ, 299 ≤ m → m ≤ 301 → windowLabel m = some "5h")
    ∧ (∀ m : ℚ, 10079 ≤ m → m ≤ 10081 → windowLabel m = some "1 week")
    ∧ (∀ (w : RateLimitWindowJson) (u : ℚ), w.used_percent = some u →
        (buildRateLimitWindow nowMs w).remainingPercent = some (clampPercent (100 - u))
          ∧ 0 ≤ clampPercent (100 - u) ∧ clampPercent (100 - u) ≤ 100)
    ∧ (∀ (w : RateLimitWindowJson) (s : ℚ), w.resets_in_seconds = some s →
        (buildRateLimitWindow nowMs w).resetsInSeconds = some s)
    ∧ (∀ (w : RateLimitWindowJson) (t : ℚ), w.resets_in_seconds = none → w.resets_at = some t →
        resetsAtMillisThreshold ≤ t →
        (buildRateLimitWindow nowMs w).resetsInSeconds = some ((t - nowMs) / 1000))
    ∧ (∀ (w : RateLimitWindowJson) (t : ℚ), w.resets_in_seconds = none → w.resets_at = some t →
        t < resetsAtMillisThreshold →
        (buildRateLimitWindow nowMs w).resetsInSeconds = some (t - nowMs / 1000))
    ∧ (∀ (events : List (ℚ × RateLimitsJson)) (e : ℚ × RateLimitsJson),
        latestRateLimits events = some e → e ∈ events ∧ ∀ x ∈ events, x.1 ≤ e.1) := by
  refine ⟨?_, ?_, ?_, ?_, ?_, ?_, ?_⟩
  · intro m h1 h2
    unfold windowLabel
    rw [if_pos ⟨h1, h2⟩]
  · intro m h1 h2
    unfold windowLabel
    rw [if_neg (by intro hc; linarith [hc.2]), if_pos ⟨h1, h2⟩]
  · intro w u hu
    refine ⟨by simp [buildRateLimitWindow, hu], le_max_left _ _, ?_⟩
    exact max_le (by norm_num) (min_le_left _ _)
  · intro w s hs
    simp [buildRateLimitWindow, resolveResetsInSeconds, hs]
  · intro w t hs ht hmag
    simp [buildRateLimitWindow, resolveResetsInSeconds, hs, ht, hmag]
  · intro w t hs ht hmag
    simp [buildRateLimitWindow, resolveResetsInSeconds, hs, ht, not_le.mpr hmag]
  · intro events e h
    unfold latestRateLimits at h
    rcases latestRateLimits_go events none e h with ⟨hmem, hall, _⟩
    rcases hmem with hm | hm
    · simp at hm
    · exact ⟨hm, hall⟩

/-- C2 witness: the spec's own scenario — `window_minutes = 10079` with
a millisecond `resets_at` two days ahead of `now` resolves to label
"1 week" with `resetsInSeconds = 172800`, and the latest of two
readings is the one kept. -/
theorem codex_rate_limit_extraction_witness :
    windowLabel 10079 = some "1 week"
      ∧ (buildRateLimitWindow 1704110400000
          { used_percent := some 30, window_minutes := some 10079,
            resets_in_seconds := none,
            resets_at := some 1704283200000 }).resetsInSeconds = some 172800
      ∧ (buildRateLimitWindow 1704110400000
          { used_percent := some 30, window_minutes := some 10079,
            resets_in_seconds := none,
            resets_at := some 1704283200000 }).remainingPercent = some 70
      ∧ latestRateLimits [(1, { primary := none, secondary := none }),
          (2, { primary := none, secondary := none })]
          = some (2, { primary := none, secondary := none }) := by
  have h := codex_rate_limit_extraction 1704110400000
  refine ⟨h.2.1 10079 (by norm_num) (by norm_num), ?_, ?_, ?_⟩
  · have := h.2.2.2.2.1
      { used_percent := some 30, window_minutes := some 10079,
        resets_in_seconds := none, resets_at := some 1704283200000 }
      1704283200000 rfl rfl (by norm_num [resetsAtMillisThreshold])
    rw [this]
    norm_num
  · have := (h.2.2.1
      { used_percent := some 30, window_minutes := some 10079,
        resets_in_seconds := none, resets_at := some 1704283200000 } 30 rfl).1
    rw [this]
    norm_num [clampPercent, min_def, max_def]
  · norm_num [latestRateLimits]

/-! ## C9 — façade error isolation -/

theorem intercalate_go_append (sep : String) (as : List String) :
    ∀ acc, ∃ suffix, String.intercalate.go acc sep as = acc ++ suffix := by
  induction as with
  | nil => intro acc; exact ⟨"", by simp [String.intercalate.go]⟩
  | cons a as ih =>
    intro acc
    rcases ih (acc ++ sep ++ a) with ⟨suffix, hs⟩
    refine ⟨sep ++ a ++ suffix, ?_⟩
    show String.intercalate.go (acc ++ sep ++ a) sep as = _
    rw [hs, String.append_assoc, String.append_assoc, String.append_assoc]

theorem intercalate_go_decomp (sep : String) (as : List String) :
    ∀ (acc x : String), x ∈ as →
      ∃ pre post, String.intercalate.go acc sep as = pre ++ x ++ post := by
  induction as with
  | nil => intro acc x hx; simp at hx
  | cons a as ih =>
    intro acc x hx
    rcases List.mem_cons.mp hx with rfl | hx
    · rcases intercalate_go_append sep as (acc ++ sep ++ x) with ⟨suffix, hs⟩
      refine ⟨acc ++ sep, suffix, ?_⟩
      show String.intercalate.go (acc ++ sep ++ x) sep as = _
      rw [hs, String.append_assoc]
    · exact ih (acc ++ sep ++ a) x hx

theorem intercalate_decomp (sep : String) (as : List String) (x : String) (hx : x ∈ as) :
    ∃ pre post, String.intercalate sep as = pre ++ x ++ post := by
  cases as with
  | nil => simp at hx
  | cons a as =>
    rcases List.mem_cons.mp hx with rfl | hx
    · rcases intercalate_go_append sep as x with ⟨suffix, hs⟩
      refine ⟨"", suffix, ?_⟩
      show String.intercalate.go x sep as = _
      rw [hs]
      cases x
      rfl
    · rcases intercalate_go_decomp sep as a x hx with ⟨pre, post, hs⟩
      exact ⟨pre, post, hs⟩

theorem composeError_lists_every_error (errors : List (Provider × String)) (fallback : String)
    (p : Provider) (m : String) (hmem : (p, m) ∈ errors) :
    ∃ pre post, composeError errors fallback = pre ++ (providerName p ++ ": " ++ m) ++ post := by
  cases errors with
  | nil => simp at hmem
  | cons e rest =>
    have hpart : providerName p ++ ": " ++ m
        ∈ (e :: rest).map fun err => providerName err.1 ++ ": " ++ err.2 := by
      refine List.mem_map.mpr ⟨(p, m), hmem, rfl⟩
    rcases intercalate_decomp "; " _ _ hpart with ⟨pre, post, hs⟩
    refine ⟨fallback ++ " (" ++ pre, post ++ ")", ?_⟩
    show fallback ++ " (" ++ _ ++ ")" = _
    rw [hs]
    simp only [String.append_assoc]

/-- C9: one provider's failure never suppresses the other's result in
`both`/`auto` mode; the call fails exactly when a single requested
provider failed or, in `both`/`auto` mode, both failed (the code's
"no provider selected" branch is unreachable for the four-value mode
type); the thrown message is composed from the full error list; and the
composed message contains every collected provider error. -/
theorem getUsage_failure_isolation {γ δ : Type} (mode : ProviderMode)
    (claudeRes : Except String γ) (codexRes : Except String δ) :
    ((mode = ProviderMode.both ∨ mode = ProviderMode.auto) →
      (∀ d, codexRes = Except.ok d →
        ∃ s, getUsage mode claudeRes codexRes = Except.ok s ∧ s.codex = some d)
      ∧ (∀ c, claudeRes = Except.ok c →
        ∃ s, getUsage mode claudeRes codexRes = Except.ok s ∧ s.claude = some c))
    ∧ ((∃ msg, getUsage mode claudeRes codexRes = Except.error msg) ↔
        ((mode = ProviderMode.claude ∧ ∃ e, claudeRes = Except.error e)
          ∨ (mode = ProviderMode.codex ∧ ∃ e, codexRes = Except.error e)
          ∨ ((mode = ProviderMode.both ∨ mode = ProviderMode.auto)
              ∧ (∃ e, claudeRes = Except.error e) ∧ (∃ e, codexRes = Except.error e))))
    ∧ (∀ e, mode = ProviderMode.claude → claudeRes = Except.error e →
        getUsage mode claudeRes codexRes =
          Except.error (composeError [(Provider.claude, e)] "Claude usage data is unavailable."))
    ∧ (∀ e, mode = ProviderMode.codex → codexRes = Except.error e →
        getUsage mode claudeRes codexRes =
          Except.error (composeError [(Provider.codex, e)] "Codex usage data is unavailable."))
    ∧ (∀ ec ex, (mode = ProviderMode.both ∨ mode = ProviderMode.auto) →
        claudeRes = Except.error ec → codexRes = Except.error ex →
        getUsage mode claudeRes codexRes =
          Except.error (composeError [(Provider.claude, ec), (Provider.codex, ex)]
            "Failed to load usage data.")) := by
  refine ⟨?_, ?_, ?_, ?_, ?_⟩
  · rintro (rfl | rfl) <;>
      exact ⟨fun d hd => by subst hd; cases claudeRes <;> simp [getUsage, Except.toOption],
        fun c hc => by subst hc; cases codexRes <;> simp [getUsage, Except.toOption]⟩
  · cases mode <;> cases claudeRes <;> cases codexRes <;> simp [getUsage, Except.toOption]
  · rintro e rfl rfl
    cases codexRes <;> simp [getUsage, Except.toOption]
  · rintro e rfl rfl
    cases claudeRes <;> simp [getUsage, Except.toOption]
  · rintro ec ex (rfl | rfl) rfl rfl <;> simp [getUsage, Except.toOption]

/-- C9 witness: concrete outcomes — in `both` mode a Codex failure does
not suppress the Claude result, and in `claude` mode a Claude failure
surfaces the composed message. -/
theorem getUsage_failure_isolation_witness :
    (∃ s, getUsage ProviderMode.both (Except.ok (37 : Nat))
        (Except.error "boom" : Except String Nat) = Except.ok s ∧ s.claude = some 37)
      ∧ getUsage ProviderMode.claude (Except.error "down" : Except String Nat)
          (Except.ok (1 : Nat)) =
        Except.error (composeError [(Provider.claude, "down")]
          "Claude usage data is unavailable.") := by
  refine ⟨?_, ?_⟩
  · exact ((getUsage_failure_isolation ProviderMode.both (Except.ok 37)
      (Except.error "boom")).1 (Or.inl rfl)).2 37 rfl
  · exact (getUsage_failure_isolation ProviderMode.claude
      (Except.error "down") (Except.ok 1)).2.2.1 "down" rfl rfl

/-! ## C6 — delta invariant -/

theorem asPositiveNumber_nonneg (v : Option ℚ) : 0 ≤ asPositiveNumber v := by
  cases v with
  | none => simp [asPositiveNumber]
  | some q =>
    simp only [asPositiveNumber]
    by_cases h : 0 < q
    · rw [if_pos h]; exact le_of_lt h
    · rw [if_neg h]

theorem normalizeCodexUsage_invariant (j : UsageJson) (u : RawCodexUsage)
    (h : normalizeCodexUsage (some j) = some u) :
    usageNonneg u ∧ u.cachedInputTokens ≤ u.inputTokens := by
  unfold normalizeCodexUsage at h
  simp only [Option.some.injEq] at h
  subst h
  refine ⟨⟨asPositiveNumber_nonneg _, ?_, asPositiveNumber_nonneg _, asPositiveNumber_nonneg _,
    ?_⟩, min_le_right _ _⟩
  · exact le_min (asPositiveNumber_nonneg _) (asPositiveNumber_nonneg _)
  · dsimp only
    split
    · exact le_of_lt (by assumption)
    · exact add_nonneg (asPositiveNumber_nonneg _) (asPositiveNumber_nonneg _)

theorem subtractCodexUsage_nonneg (cur : RawCodexUsage) (prev : Option RawCodexUsage)
    (h : usageNonneg cur) : usageNonneg (subtractCodexUsage cur prev) := by
  cases prev with
  | none => exact h
  | some p =>
    exact ⟨le_max_left _ _, le_max_left _ _, le_max_left _ _, le_max_left _ _, le_max_left _ _⟩

theorem subtractCodexUsage_cached_le (cur prev : RawCodexUsage)
    (h : cur.cachedInputTokens - prev.cachedInputTokens
      ≤ cur.inputTokens - prev.inputTokens) :
    (subtractCodexUsage cur (some prev)).cachedInputTokens
      ≤ (subtractCodexUsage cur (some prev)).inputTokens := by
  show max 0 (cur.cachedInputTokens - prev.cachedInputTokens)
    ≤ max 0 (cur.inputTokens - prev.inputTokens)
  exact max_le_max (le_refl 0) h

theorem tokenLineUsage_nonneg (s : CodexParseState) (r : CodexRecord) (u : RawCodexUsage)
    (h : tokenLineUsage s r = some u) : usageNonneg u := by
  unfold tokenLineUsage at h
  cases hl : normalizeCodexUsage (lineLastJson r) with
  | some v =>
    rw [hl] at h
    simp only [Option.some.injEq] at h
    subst h
    cases hj : lineLastJson r with
    | none => rw [hj] at hl; simp [normalizeCodexUsage] at hl
    | some j => rw [hj] at hl; exact (normalizeCodexUsage_invariant j v hl).1
  | none =>
    rw [hl] at h
    cases ht : normalizeCodexUsage (lineTotalJson r) with
    | none => rw [ht] at h; simp at h
    | some t =>
      rw [ht] at h
      simp only [Option.some.injEq] at h
      subst h
      cases hj : lineTotalJson r with
      | none => rw [hj] at ht; simp [normalizeCodexUsage] at ht
      | some j =>
        rw [hj] at ht
        exact subtractCodexUsage_nonneg t _ (normalizeCodexUsage_invariant j t ht).1

theorem updatePreviousTotals_events (s : CodexParseState) (r : CodexRecord) :
    (updatePreviousTotals s r).events = s.events := by
  unfold updatePreviousTotals
  cases h : normalizeCodexUsage (lineTotalJson r) <;> simp

theorem emitTokenEvent_events (s1 : CodexParseState) (ts : ℚ) (em : Option String)
    (u : RawCodexUsage) :
    ∃ e : TokenUsageEvent, (emitTokenEvent s1 ts em u).events = s1.events ++ [e]
      ∧ e.usage = u ∧ e.timestamp = ts ∧ e.model.isSome = true := by
  cases em with
  | some m => exact ⟨_, rfl, rfl, rfl, rfl⟩
  | none =>
    obtain ⟨ev, iss, pt, cm, cf, lf⟩ := s1
    cases cm with
    | some m => exact ⟨_, rfl, rfl, rfl, rfl⟩
    | none => exact ⟨_, rfl, rfl, rfl, rfl⟩

theorem codexStep_events_shape (s : CodexParseState) (line : Option CodexRecord) :
    (codexStep s line).events = s.events
    ∨ ∃ (r : CodexRecord) (ts : ℚ) (e : TokenUsageEvent),
        line = some r ∧ (codexStep s line).events = s.events ++ [e]
          ∧ tokenLineUsage s r = some e.usage ∧ e.timestamp = ts
          ∧ e.model.isSome = true := by
  cases line with
  | none => exact Or.inl rfl
  | some r =>
    simp only [codexStep]
    by_cases h1 : r.rtype = some "turn_context"
    · rw [if_pos h1]
      cases r.payload.bind extractCodexModel with
      | some m => exact Or.inl rfl
      | none => exact Or.inl rfl
    · rw [if_neg h1]
      by_cases h2 : r.rtype = some "event_msg"
      · rw [if_pos h2]
        by_cases h3 : (r.payload.bind fun p => p.ptype) = some "token_count"
        · rw [if_pos h3]
          cases hts : r.timestamp with
          | none => exact Or.inl rfl
          | some ts =>
            cases hu : tokenLineUsage s r with
            | none =>
              simp only [hu]
              exact Or.inl (updatePreviousTotals_events s r)
            | some u =>
              simp only [hu]
              by_cases he : isUsageEmpty u = true
              · rw [if_pos he]
                exact Or.inl (updatePreviousTotals_events s r)
              · rw [if_neg he]
                rcases emitTokenEvent_events (updatePreviousTotals s r) ts
                  (r.payload.bind extractCodexModel) u with ⟨e, hev, hu', hts', hm'⟩
                refine Or.inr ⟨r, ts, e, rfl, ?_, ?_, hts', hm'⟩
                · rw [hev, updatePreviousTotals_events]
                · rw [hu, hu']
        · rw [if_neg h3]
          exact Or.inl rfl
      · rw [if_neg h2]
        exact Or.inl rfl

theorem parseCodexGo_events_nonneg :
    ∀ (lines : List (Option CodexRecord)) (s : CodexParseState),
      (∀ e ∈ s.events, usageNonneg e.usage) →
      ∀ e ∈ (parseCodexGo s lines).events, usageNonneg e.usage := by
  intro lines
  induction lines with
  | nil => intro s h; exact h
  | cons l ls ih =>
    intro s h
    apply ih
    rcases codexStep_events_shape s l with heq | ⟨r, ts, e, _, hev, hprov, _, _⟩
    · rw [heq]; exact h
    · rw [hev]
      intro e' he'
      rcases List.mem_append.mp he' with h' | h'
      · exact h e' h'
      · rw [List.mem_singleton.mp h']
        exact tokenLineUsage_nonneg s r e.usage hprov

theorem parseCodexSession_events_nonneg (lines : List (Option CodexRecord)) :
    ∀ e ∈ (parseCodexSession lines).events, usageNonneg e.usage := by
  intro e he
  exact parseCodexGo_events_nonneg lines initCodexParseState (by simp [initCodexParseState]) e he

/-- C6 counterexample: a cumulative-only session in which the cumulative
cached counter rises by 10 while the input counter is flat produces, via
clamped subtraction, an emitted delta with `cachedInputTokens = 10 >
inputTokens = 0` — the claimed invariant `cachedInputTokens ≤
inputTokens` fails on a delta that reaches the Aggregator. -/
theorem codex_delta_invariant_counterexample :
    ((parseCodexSession sessionCachedJump).events.map fun e =>
        (e.usage.inputTokens, e.usage.cachedInputTokens)) = [(10, 0), (0, 10)]
      ∧ ¬(∀ e ∈ (parseCodexSession sessionCachedJump).events,
          e.usage.cachedInputTokens ≤ e.usage.inputTokens) := by
  have h : (parseCodexSession sessionCachedJump).events =
      [{ timestamp := 1, model := some "gpt-5",
         usage := { inputTokens := 10, cachedInputTokens := 0, outputTokens := 0,
                    reasoningOutputTokens := 0, totalTokens := 10 }, isFallbackModel := true },
       { timestamp := 2, model := some "gpt-5",
         usage := { inputTokens := 0, cachedInputTokens := 10, outputTokens := 0,
                    reasoningOutputTokens := 0, totalTokens := 0 }, isFallbackModel := true }] := by
    norm_num +decide [parseCodexSession, parseCodexGo, codexStep, initCodexParseState,
      tokenLineUsage, updatePreviousTotals, emitTokenEvent, normalizeCodexUsage, lineLastJson,
      lineTotalJson, asPositiveNumber, isUsageEmpty, extractCodexModel, pickModelString, trimStr,
      isWsChar, sessionCachedJump, cumTokenLine, cumUsageJsonC, subtractCodexUsage, min_def,
      max_def]
  constructor
  · rw [h]; norm_num
  · rw [h]
    intro hc
    have h2 := hc
      { timestamp := 2, model := some "gpt-5",
        usage := { inputTokens := 0, cachedInputTokens := 10, outputTokens := 0,
                   reasoningOutputTokens := 0, totalTokens := 0 },
        isFallbackModel := true } (by simp)
    norm_num at h2

/-- C6 (amended): all five fields of every delta reaching the Aggregator
are ≥ 0, and `cachedInputTokens ≤ inputTokens` holds for deltas taken
directly from `last_token_usage` (the normalizer enforces it); for
deltas reconstructed by clamped subtraction it holds only when the
cumulative cached counter grows by no more than the input counter
between snapshots — otherwise the reconstructed delta can have
`cachedInputTokens > inputTokens`. -/
theorem codex_delta_invariant_amended :
    (∀ (j : UsageJson) (u : RawCodexUsage), normalizeCodexUsage (some j) = some u →
      usageNonneg u ∧ u.cachedInputTokens ≤ u.inputTokens)
    ∧ (∀ (cur : RawCodexUsage) (prev : Option RawCodexUsage), usageNonneg cur →
        usageNonneg (subtractCodexUsage cur prev))
    ∧ (∀ lines, ∀ e ∈ (parseCodexSession lines).events, usageNonneg e.usage)
    ∧ (∀ cur prev : RawCodexUsage,
        cur.cachedInputTokens - prev.cachedInputTokens ≤ cur.inputTokens - prev.inputTokens →
        (subtractCodexUsage cur (some prev)).cachedInputTokens
          ≤ (subtractCodexUsage cur (some prev)).inputTokens) :=
  ⟨normalizeCodexUsage_invariant, subtractCodexUsage_nonneg,
    parseCodexSession_events_nonneg, subtractCodexUsage_cached_le⟩

/-- C6 witness: the amended theorem applied to the monotone
two-snapshot fixture and to concrete counters. -/
theorem codex_delta_invariant_amended_witness :
    usageNonneg { inputTokens := (10 : ℚ), cachedInputTokens := 0, outputTokens := 0,
                  reasoningOutputTokens := 0, totalTokens := 10 }
      ∧ (subtractCodexUsage
            { inputTokens := 9, cachedInputTokens := 2, outputTokens := 0,
              reasoningOutputTokens := 0, totalTokens := 9 }
            (some { inputTokens := 5, cachedInputTokens := 1, outputTokens := 0,
                    reasoningOutputTokens := 0, totalTokens := 5 })).cachedInputTokens
          ≤ (subtractCodexUsage
              { inputTokens := 9, cachedInputTokens := 2, outputTokens := 0,
                reasoningOutputTokens := 0, totalTokens := 9 }
              (some { inputTokens := 5, cachedInputTokens := 1, outputTokens := 0,
                      reasoningOutputTokens := 0, totalTokens := 5 })).inputTokens := by
  constructor
  · exact (codex_delta_invariant_amended.2.1
      { inputTokens := 10, cachedInputTokens := 0, outputTokens := 0,
        reasoningOutputTokens := 0, totalTokens := 10 } none (by norm_num [usageNonneg]))
  · exact codex_delta_invariant_amended.2.2.2 _ _ (by norm_num)

/-! ## C4 — fallback model -/

/-- The invariant the parser state satisfies while scanning a session in
which no line's payload yields a model. -/
def FallbackInv (s : CodexParseState) : Prop :=
  (∀ e ∈ s.events, e.model = some "gpt-5" ∧ e.isFallbackModel = true)
    ∧ s.issues.count legacyFallbackIssue = 0
    ∧ ((s.currentModel = none ∧ s.legacyFallbackUsed = false ∧ s.events = [])
       ∨ (s.currentModel = some "gpt-5" ∧ s.currentModelIsFallback = true
          ∧ s.legacyFallbackUsed = true ∧ s.events ≠ []))

theorem updatePreviousTotals_fields (s : CodexParseState) (r : CodexRecord) :
    (updatePreviousTotals s r).events = s.events
      ∧ (updatePreviousTotals s r).issues = s.issues
      ∧ (updatePreviousTotals s r).currentModel = s.currentModel
      ∧ (updatePreviousTotals s r).currentModelIsFallback = s.currentModelIsFallback
      ∧ (updatePreviousTotals s r).legacyFallbackUsed = s.legacyFallbackUsed := by
  unfold updatePreviousTotals
  cases h : normalizeCodexUsage (lineTotalJson r) <;> simp

theorem fallbackInv_updatePreviousTotals (s : CodexParseState) (r : CodexRecord)
    (h : FallbackInv s) : FallbackInv (updatePreviousTotals s r) := by
  rcases updatePreviousTotals_fields s r with ⟨h1, h2, h3, h4, h5⟩
  unfold FallbackInv
  rw [h1, h2, h3, h4, h5]
  exact h

theorem codexStep_fallback_inv (s : CodexParseState) (line : Option CodexRecord)
    (hm : (line.bind fun r => r.payload).bind extractCodexModel = none)
    (h : FallbackInv s) : FallbackInv (codexStep s line) := by
  cases line with
  | none =>
    refine ⟨h.1, ?_, ?_⟩
    · show (s.issues ++ [invalidJsonIssue]).count legacyFallbackIssue = 0
      rw [List.count_append, h.2.1]
      decide
    · exact h.2.2
  | some r =>
    have hm' : r.payload.bind extractCodexModel = none := by simpa using hm
    simp only [codexStep]
    by_cases h1 : r.rtype = some "turn_context"
    · rw [if_pos h1, hm']
      exact h
    · rw [if_neg h1]
      by_cases h2 : r.rtype = some "event_msg"
      · rw [if_pos h2]
        by_cases h3 : (r.payload.bind fun p => p.ptype) = some "token_count"
        · rw [if_pos h3]
          cases hts : r.timestamp with
          | none => exact h
          | some ts =>
            cases hu : tokenLineUsage s r with
            | none =>
              simp only [hu]
              exact fallbackInv_updatePreviousTotals s r h
            | some u =>
              simp only [hu]
              by_cases he : isUsageEmpty u = true
              · rw [if_pos he]
                exact fallbackInv_updatePreviousTotals s r h
              · rw [if_neg he]
                rw [hm']
                have hinv1 := fallbackInv_updatePreviousTotals s r h
                rcases updatePreviousTotals_fields s r with ⟨hf1, hf2, hf3, hf4, hf5⟩
                show FallbackInv (emitTokenEvent (updatePreviousTotals s r) ts none u)
                rcases hinv1.2.2 with ⟨hcm, hlg, hev⟩ | ⟨hcm, hcf, hlg, hev⟩
                · simp only [emitTokenEvent, hcm]
                  refine ⟨?_, by simpa using hinv1.2.1, Or.inr ⟨rfl, rfl, rfl, by simp⟩⟩
                  intro e he'
                  rw [hev] at he'
                  simp only [List.nil_append, List.mem_singleton] at he'
                  rw [he']
                  exact ⟨rfl, rfl⟩
                · simp only [emitTokenEvent, hcm]
                  refine ⟨?_, by simpa using hinv1.2.1, Or.inr ⟨rfl, hcf, hlg, by simp⟩⟩
                  intro e he'
                  rcases List.mem_append.mp he' with h' | h'
                  · exact hinv1.1 e h'
                  · rw [List.mem_singleton.mp h']
                    exact ⟨rfl, by simp [hcf]⟩
        · rw [if_neg h3]
          exact h
      · rw [if_neg h2]
        exact h

theorem parseCodexGo_fallback_inv :
    ∀ (lines : List (Option CodexRecord)) (s : CodexParseState),
      (∀ line ∈ lines, (line.bind fun r => r.payload).bind extractCodexModel = none) →
      FallbackInv s → FallbackInv (parseCodexGo s lines) := by
  intro lines
  induction lines with
  | nil => intro s _ h; exact h
  | cons l ls ih =>
    intro s hall h
    exact ih (codexStep s l)
      (fun line hline => hall line (List.mem_cons_of_mem _ hline))
      (codexStep_fallback_inv s l (hall l (List.mem_cons_self _ _)) h)

/-- C4 counterexample: the claim's premise only forbids a `turn_context`
before the *first* token-count event and model metadata on the events'
own payloads; a model-bearing `turn_context` between two token events
satisfies that premise, yet the second event is emitted with the
`turn_context` model and `isFallbackModel = false`, so not every event
of the session carries the fallback flag. -/
theorem codex_fallback_claim_counterexample :
    (sessionTurnCtxAfterFirst.map fun line =>
        (line.bind fun r => r.payload).bind extractCodexModel)
      = [none, some "gpt-4.1", none]
      ∧ sessionTurnCtxAfterFirst.head? = some (some (cumTokenLine 1 (cumUsageJson 5 5)))
      ∧ (cumTokenLine 1 (cumUsageJson 5 5)).rtype = some "event_msg"
      ∧ ((parseCodexSession sessionTurnCtxAfterFirst).events.map fun e =>
          (e.model, e.isFallbackModel))
        = [(some "gpt-5", true), (some "gpt-4.1", false)]
      ∧ ¬(∀ e ∈ (parseCodexSession sessionTurnCtxAfterFirst).events,
          e.isFallbackModel = true) := by
  have h : (parseCodexSession sessionTurnCtxAfterFirst).events =
      [{ timestamp := 1, model := some "gpt-5",
         usage := { inputTokens := 5, cachedInputTokens := 0, outputTokens := 0,
                    reasoningOutputTokens := 0, totalTokens := 5 }, isFallbackModel := true },
       { timestamp := 2, model := some "gpt-4.1",
         usage := { inputTokens := 4, cachedInputTokens := 0, outputTokens := 0,
                    reasoningOutputTokens := 0, totalTokens := 4 }, isFallbackModel := false }] := by
    norm_num +decide [parseCodexSession, parseCodexGo, codexStep, initCodexParseState,
      tokenLineUsage, updatePreviousTotals, emitTokenEvent, normalizeCodexUsage, lineLastJson,
      lineTotalJson, asPositiveNumber, isUsageEmpty, extractCodexModel, pickModelString, trimStr,
      isWsChar, sessionTurnCtxAfterFirst, cumTokenLine, cumUsageJson, turnContextLine,
      subtractCodexUsage, min_def, max_def]
  refine ⟨by decide, rfl, rfl, by rw [h]; norm_num, ?_⟩
  rw [h]
  intro hc
  have h2 := hc
    { timestamp := 2, model := some "gpt-4.1",
      usage := { inputTokens := 4, cachedInputTokens := 0, outputTokens := 0,
                 reasoningOutputTokens := 0, totalTokens := 4 },
      isFallbackModel := false } (by simp)
  simp at h2

/-- C4 (amended): for a session in which *no* line's payload yields a
model — neither a model-bearing `turn_context` anywhere in the file nor
model metadata on any event's own payload — every emitted usage event
carries the hard-coded fallback model `gpt-5` with `isFallbackModel =
true`, and exactly one fallback diagnostic is recorded for the file. -/
theorem codex_fallback_all_events_flagged (lines : List (Option CodexRecord))
    (hmodel : ∀ line ∈ lines, (line.bind fun r => r.payload).bind extractCodexModel = none)
    (hnonempty : (parseCodexSession lines).events ≠ []) :
    (∀ e ∈ (parseCodexSession lines).events, e.model = some "gpt-5" ∧ e.isFallbackModel = true)
      ∧ (parseCodexSession lines).issues.count legacyFallbackIssue = 1 := by
  have hinv : FallbackInv (parseCodexGo initCodexParseState lines) :=
    parseCodexGo_fallback_inv lines initCodexParseState hmodel
      ⟨by simp [initCodexParseState], by simp [initCodexParseState], Or.inl ⟨rfl, rfl, rfl⟩⟩
  have hev : (parseCodexSession lines).events = (parseCodexGo initCodexParseState lines).events :=
    rfl
  refine ⟨fun e he => hinv.1 e (hev ▸ he), ?_⟩
  rcases hinv.2.2 with ⟨_, _, hnil⟩ | ⟨_, _, hlg, _⟩
  · exact absurd (hev.trans hnil) hnonempty
  · show ((parseCodexGo initCodexParseState lines).issues
      ++ (if (parseCodexGo initCodexParseState lines).legacyFallbackUsed
            then [legacyFallbackIssue] else [])).count legacyFallbackIssue = 1
    rw [hlg, List.count_append, hinv.2.1]
    decide

/-- C4 witness: the amended theorem applied to the model-less
cumulative fixture session. -/
theorem codex_fallback_all_events_flagged_witness :
    (∀ e ∈ (parseCodexSession sessionCumulative).events,
      e.model = some "gpt-5" ∧ e.isFallbackModel = true)
      ∧ (parseCodexSession sessionCumulative).issues.count legacyFallbackIssue = 1 := by
  have h : (parseCodexSession sessionCumulative).events =
      [{ timestamp := 1, model := some "gpt-5",
         usage := { inputTokens := 5, cachedInputTokens := 0, outputTokens := 0,
                    reasoningOutputTokens := 0, totalTokens := 5 }, isFallbackModel := true },
       { timestamp := 2, model := some "gpt-5",
         usage := { inputTokens := 4, cachedInputTokens := 0, outputTokens := 0,
                    reasoningOutputTokens := 0, totalTokens := 4 }, isFallbackModel := true }] := by
    norm_num +decide [parseCodexSession, parseCodexGo, codexStep, initCodexParseState,
      tokenLineUsage, updatePreviousTotals, emitTokenEvent, normalizeCodexUsage, lineLastJson,
      lineTotalJson, asPositiveNumber, isUsageEmpty, extractCodexModel, pickModelString, trimStr,
      isWsChar, sessionCumulative, cumTokenLine, cumUsageJson, subtractCodexUsage, min_def,
      max_def]
  exact codex_fallback_all_events_flagged sessionCumulative (by decide) (by rw [h]; simp)

/-! ## Grouping lemmas for the per-model aggregation -/

theorem sumUsage_inputTokens (l : List RawCodexUsage) :
    (sumUsage l).inputTokens = (l.map fun u => u.inputTokens).sum := by
  induction l with
  | nil => simp [sumUsage_nil, createEmptyUsage]
  | cons u l ih => simp [sumUsage_cons, addUsage, ih]

theorem sumUsage_cachedInputTokens (l : List RawCodexUsage) :
    (sumUsage l).cachedInputTokens = (l.map fun u => u.cachedInputTokens).sum := by
  induction l with
  | nil => simp [sumUsage_nil, createEmptyUsage]
  | cons u l ih => simp [sumUsage_cons, addUsage, ih]

theorem sumUsage_outputTokens (l : List RawCodexUsage) :
    (sumUsage l).outputTokens = (l.map fun u => u.outputTokens).sum := by
  induction l with
  | nil => simp [sumUsage_nil, createEmptyUsage]
  | cons u l ih => simp [sumUsage_cons, addUsage, ih]

theorem sumUsage_reasoningOutputTokens (l : List RawCodexUsage) :
    (sumUsage l).reasoningOutputTokens = (l.map fun u => u.reasoningOutputTokens).sum := by
  induction l with
  | nil => simp [sumUsage_nil, createEmptyUsage]
  | cons u l ih => simp [sumUsage_cons, addUsage, ih]

theorem sumUsage_totalTokens (l : List RawCodexUsage) :
    (sumUsage l).totalTokens = (l.map fun u => u.totalTokens).sum := by
  induction l with
  | nil => simp [sumUsage_nil, createEmptyUsage]
  | cons u l ih => simp [sumUsage_cons, addUsage, ih]

theorem sumUsage_perm {l1 l2 : List RawCodexUsage} (h : l1.Perm l2) :
    sumUsage l1 = sumUsage l2 := by
  ext
  · rw [sumUsage_inputTokens, sumUsage_inputTokens]; exact (h.map _).sum_eq
  · rw [sumUsage_cachedInputTokens, sumUsage_cachedInputTokens]; exact (h.map _).sum_eq
  · rw [sumUsage_outputTokens, sumUsage_outputTokens]; exact (h.map _).sum_eq
  · rw [sumUsage_reasoningOutputTokens, sumUsage_reasoningOutputTokens]; exact (h.map _).sum_eq
  · rw [sumUsage_totalTokens, sumUsage_totalTokens]; exact (h.map _).sum_eq

theorem perModelSet_keys (m : List (String × ModelAccum)) (k : String) (v : ModelAccum) :
    (perModelSet m k v).map Prod.fst =
      if k ∈ m.map Prod.fst then m.map Prod.fst else m.map Prod.fst ++ [k] := by
  induction m with
  | nil => simp [perModelSet]
  | cons e rest ih =>
    obtain ⟨k', v'⟩ := e
    by_cases hk : k' = k
    · subst hk
      simp [perModelSet]
    · simp only [perModelSet, if_neg hk, List.map_cons, ih]
      by_cases hmem : k ∈ rest.map Prod.fst
      · rw [if_pos hmem, if_pos (List.mem_cons_of_mem _ hmem)]
      · have hns : k ∉ k' :: rest.map Prod.fst := by
          intro hc
          rcases List.mem_cons.mp hc with h | h
          · exact hk h.symm
          · exact hmem h
        rw [if_neg hmem, if_neg hns]
        simp

theorem perModelSet_keys_nodup (m : List (String × ModelAccum)) (k : String) (v : ModelAccum)
    (h : ((m.map Prod.fst).Nodup)) : (((perModelSet m k v).map Prod.fst).Nodup) := by
  rw [perModelSet_keys]
  by_cases hk : k ∈ m.map Prod.fst
  · rw [if_pos hk]; exact h
  · rw [if_neg hk]
    exact List.Nodup.append h (List.nodup_singleton k) (by simpa using hk)

theorem perModelStep_keys_nodup (acc : RawCodexUsage × List (String × ModelAccum))
    (event : TokenUsageEvent) (h : ((acc.2.map Prod.fst).Nodup)) :
    (((perModelStep acc event).2.map Prod.fst).Nodup) := by
  unfold perModelStep
  cases event.model with
  | none => exact h
  | some m => exact perModelSet_keys_nodup _ _ _ h

theorem perModelFold_go_keys_nodup (events : List TokenUsageEvent) :
    ∀ (acc : RawCodexUsage × List (String × ModelAccum)), ((acc.2.map Prod.fst).Nodup) →
      (((events.foldl perModelStep acc).2.map Prod.fst).Nodup) := by
  induction events with
  | nil => intro acc h; exact h
  | cons e rest ih =>
    intro acc h
    exact ih _ (perModelStep_keys_nodup acc e h)

theorem perModelSet_sum (pm : List (String × ModelAccum)) (k : String) (u : RawCodexUsage)
    (b : Bool) :
    sumUsage ((perModelSet pm k
        { usage := addUsage ((perModelGet pm k).getD
            { usage := createEmptyUsage, isFallback := false }).usage u
          isFallback := b }).map fun e => e.2.usage)
      = addUsage (sumUsage (pm.map fun e => e.2.usage)) u := by
  induction pm with
  | nil =>
    simp only [perModelSet, perModelGet, List.map_cons, List.map_nil, sumUsage_cons, sumUsage_nil]
    ext <;> simp [addUsage, createEmptyUsage]
  | cons e rest ih =>
    obtain ⟨k', a⟩ := e
    by_cases hk : k' = k
    · subst hk
      simp only [perModelSet, perModelGet, if_pos rfl, List.map_cons, sumUsage_cons,
        Option.getD_some]
      ext <;> simp [sumUsage_cons, addUsage] <;> ring
    · simp only [perModelSet, perModelGet, if_neg hk, List.map_cons, sumUsage_cons, ih]
      ext <;> simp [sumUsage_cons, addUsage] <;> ring

theorem perModelFold_go_sum (events : List TokenUsageEvent) :
    ∀ (acc : RawCodexUsage × List (String × ModelAccum)),
      (events.foldl perModelStep acc).1
          = addUsage acc.1 (sumUsage (events.map fun e => e.usage))
        ∧ sumUsage (((events.foldl perModelStep acc).2).map fun e => e.2.usage)
          = addUsage (sumUsage (acc.2.map fun e => e.2.usage))
              (sumUsage (((events.filter fun e => e.model.isSome).map fun e => e.usage))) := by
  induction events with
  | nil =>
    intro acc
    constructor
    · rw [List.foldl_nil, List.map_nil, sumUsage_nil]
      ext <;> simp [addUsage, createEmptyUsage]
    · rw [List.foldl_nil, List.filter_nil, List.map_nil, sumUsage_nil]
      ext <;> simp [addUsage, createEmptyUsage]
  | cons e rest ih =>
    intro acc
    rw [List.foldl_cons]
    rcases ih (perModelStep acc e) with ⟨ih1, ih2⟩
    constructor
    · rw [ih1]
      have hfst : (perModelStep acc e).1 = addUsage acc.1 e.usage := by
        unfold perModelStep
        cases e.model <;> rfl
      rw [hfst, List.map_cons, sumUsage_cons]
      ext <;> simp [sumUsage_cons, addUsage] <;> ring
    · rw [ih2]
      cases hm : e.model with
      | none =>
        have hsnd : (perModelStep acc e).2 = acc.2 := by
          unfold perModelStep
          rw [hm]
        rw [hsnd]
        have hfilter : (e :: rest).filter (fun e => e.model.isSome)
            = rest.filter fun e => e.model.isSome := by
          simp [List.filter_cons, hm]
        rw [hfilter]
      | some m =>
        have hsnd : (perModelStep acc e).2 = perModelSet acc.2 m
            { usage := addUsage ((perModelGet acc.2 m).getD
                { usage := createEmptyUsage, isFallback := false }).usage e.usage
              isFallback := ((perModelGet acc.2 m).getD
                { usage := createEmptyUsage, isFallback := false }).isFallback
                  || e.isFallbackModel } := by
          unfold perModelStep
          rw [hm]
        rw [hsnd, perModelSet_sum]
        have hfilter : (e :: rest).filter (fun e => e.model.isSome)
            = e :: (rest.filter fun e => e.model.isSome) := by
          simp [List.filter_cons, hm]
        rw [hfilter, List.map_cons, sumUsage_cons]
        ext <;> simp [sumUsage_cons, addUsage] <;> ring

/-! ## C10 — per-model summaries partition the grand total -/

theorem parseCodexGo_events_model_isSome :
    ∀ (lines : List (Option CodexRecord)) (s : CodexParseState),
      (∀ e ∈ s.events, e.model.isSome = true) →
      ∀ e ∈ (parseCodexGo s lines).events, e.model.isSome = true := by
  intro lines
  induction lines with
  | nil => intro s h; exact h
  | cons l ls ih =>
    intro s h
    apply ih
    rcases codexStep_events_shape s l with heq | ⟨r, ts, e, _, hev, _, _, hm⟩
    · rw [heq]; exact h
    · rw [hev]
      intro e' he'
      rcases List.mem_append.mp he' with h' | h'
      · exact h e' h'
      · rw [List.mem_singleton.mp h']
        exact hm

theorem summaries_usage_map (pm : List (String × ModelAccum)) :
    (pm.map buildModelSummary).map (fun m => m.usage) = pm.map fun e => e.2.usage := by
  rw [List.map_map]
  rfl

theorem sortSummaries_perm (l : List CodexModelUsageSummary) :
    (sortSummaries l).Perm l :=
  List.perm_insertionSort _ l

/-- C10: every event the Codex parser emits carries a model (the
fallback guarantees it), and for any event list in which every event
carries a model the per-model summaries of the aggregation partition the
grand total exactly, component-wise in all five token fields, with the
reported top-level `totalTokens` equal to that total. -/
theorem codex_model_partition_total :
    (∀ lines, ∀ e ∈ (parseCodexSession lines).events, e.model.isSome = true)
    ∧ (∀ (events : List TokenUsageEvent) (issues0 : List String),
        (∀ e ∈ events, e.model.isSome = true) →
        sumUsage ((codexAggregate events issues0).models.map fun m => m.usage)
            = sumUsage (events.map fun e => e.usage)
          ∧ (codexAggregate events issues0).totalTokens
            = (sumUsage (events.map fun e => e.usage)).totalTokens) := by
  constructor
  · intro lines e he
    exact parseCodexGo_events_model_isSome lines initCodexParseState
      (by simp [initCodexParseState]) e he
  · intro events issues0 hall
    have hfilter : events.filter (fun e => e.model.isSome) = events :=
      List.filter_eq_self.mpr hall
    rcases perModelFold_go_sum events (createEmptyUsage, []) with ⟨h1, h2⟩
    constructor
    · have hperm : ((codexAggregate events issues0).models.map fun m => m.usage).Perm
          (((perModelFold events).2.map buildModelSummary).map fun m => m.usage) := by
        exact (sortSummaries_perm _).map _
      rw [sumUsage_perm hperm, summaries_usage_map]
      show sumUsage ((events.foldl perModelStep (createEmptyUsage, [])).2.map fun e => e.2.usage)
        = _
      rw [h2, hfilter]
      simp only [List.map_nil, sumUsage_nil]
      ext <;> simp [sumUsage_cons, addUsage, createEmptyUsage]
    · show (events.foldl perModelStep (createEmptyUsage, [])).1.totalTokens = _
      rw [h1]
      simp [addUsage, createEmptyUsage]

/-- C10 witness: the partition at the mixed-pricing fixture. -/
theorem codex_model_partition_total_witness :
    sumUsage ((codexAggregate mixedPricingEvents []).models.map fun m => m.usage)
        = sumUsage (mixedPricingEvents.map fun e => e.usage)
      ∧ (codexAggregate mixedPricingEvents []).totalTokens = 2515 := by
  have h := codex_model_partition_total.2 mixedPricingEvents []
    (by intro e he; fin_cases he <;> rfl)
  refine ⟨h.1, ?_⟩
  rw [h.2]
  norm_num [mixedPricingEvents, sumUsage_totalTokens]

/-! ## C3 — cost omission on unpriced models -/

theorem codexAggregate_models (events : List TokenUsageEvent) (issues0 : List String) :
    (codexAggregate events issues0).models
      = sortSummaries ((perModelFold events).2.map buildModelSummary) := rfl

theorem codexAggregate_totalTokens_def (events : List TokenUsageEvent) (issues0 : List String) :
    (codexAggregate events issues0).totalTokens = (perModelFold events).1.totalTokens := rfl

theorem codexAggregate_issues (events : List TokenUsageEvent) (issues0 : List String) :
    (codexAggregate events issues0).issues
      = issues0 ++ ((perModelFold events).2.filterMap fun entry =>
          if (lookupCodexPricing entry.1).isSome then none
          else some (pricingIssue entry.1)) := rfl

theorem codexAggregate_costUSD (events : List TokenUsageEvent) (issues0 : List String) :
    (codexAggregate events issues0).costUSD
      = if (((perModelFold events).2.map buildModelSummary).all fun s => s.costUSD.isSome)
            ∧ 0 < ((perModelFold events).2.map buildModelSummary).length then
          some ((((perModelFold events).2.map buildModelSummary).filterMap
            fun s => s.costUSD).sum)
        else none := rfl

theorem mem_codexAggregate_models {events : List TokenUsageEvent} {issues0 : List String}
    {m : CodexModelUsageSummary} :
    m ∈ (codexAggregate events issues0).models
      ↔ ∃ entry ∈ (perModelFold events).2, buildModelSummary entry = m := by
  rw [codexAggregate_models, (sortSummaries_perm _).mem_iff, List.mem_map]

theorem pricingIssue_inj {a b : String} (h : pricingIssue a = pricingIssue b) : a = b :=
  strAppend_cancel_left h

theorem count_pricingIssue_not_mem (pm : List (String × ModelAccum)) (k : String)
    (hk : k ∉ pm.map Prod.fst) :
    ((pm.filterMap fun entry =>
        if (lookupCodexPricing entry.1).isSome then none
        else some (pricingIssue entry.1)).count (pricingIssue k)) = 0 := by
  induction pm with
  | nil => rfl
  | cons e rest ih =>
    have hk1 : e.1 ≠ k := by
      intro hc
      exact hk (hc ▸ List.mem_cons_self _ _)
    have hk2 : k ∉ rest.map Prod.fst := fun hc => hk (List.mem_cons_of_mem _ hc)
    rw [List.filterMap_cons]
    by_cases hp : (lookupCodexPricing e.1).isSome = true
    · rw [if_pos hp]
      exact ih hk2
    · rw [if_neg hp, List.count_cons, ih hk2]
      simp only [beq_iff_eq]
      rw [if_neg fun hc => hk1 (pricingIssue_inj hc)]

theorem count_pricingIssue_mem (pm : List (String × ModelAccum)) (k : String)
    (hnd : (pm.map Prod.fst).Nodup) (hk : k ∈ pm.map Prod.fst)
    (hun : lookupCodexPricing k = none) :
    ((pm.filterMap fun entry =>
        if (lookupCodexPricing entry.1).isSome then none
        else some (pricingIssue entry.1)).count (pricingIssue k)) = 1 := by
  induction pm with
  | nil => simp at hk
  | cons e rest ih =>
    rw [List.map_cons, List.nodup_cons] at hnd
    rw [List.filterMap_cons]
    rcases List.mem_cons.mp hk with hke | hkr
    · have hun' : (lookupCodexPricing e.1).isSome = false := by
        rw [← hke, hun]
        rfl
      rw [if_neg (by simp [hun']), List.count_cons,
        count_pricingIssue_not_mem rest k (by rw [hke]; exact hnd.1)]
      simp [← hke]
    · have hke : e.1 ≠ k := by
        intro hc
        exact hnd.1 (hc ▸ hkr)
      by_cases hp : (lookupCodexPricing e.1).isSome = true
      · rw [if_pos hp]
        exact ih hnd.2 hkr
      · rw [if_neg hp, List.count_cons, ih hnd.2 hkr]
        simp only [beq_iff_eq]
        rw [if_neg fun hc => hke (pricingIssue_inj hc)]

/-- C3: the whole-summary `costUSD` is defined exactly when there is at
least one model group and every group's model has a resolvable price;
total tokens are reported regardless; each priced group's own `costUSD`
is its correctly priced value (and an unpriced group's is absent); and
exactly one diagnostic issue naming each unpriced model is appended. -/
theorem codex_cost_omission_on_unpriced_model (events : List TokenUsageEvent)
    (issues0 : List String) :
    ((codexAggregate events issues0).costUSD.isSome = true ↔
      ((codexAggregate events issues0).models ≠ []
        ∧ ∀ m ∈ (codexAggregate events issues0).models,
            (lookupCodexPricing m.model).isSome = true))
    ∧ (codexAggregate events issues0).totalTokens
        = (events.map fun e => e.usage.totalTokens).sum
    ∧ (∀ m ∈ (codexAggregate events issues0).models,
        m.costUSD = (lookupCodexPricing m.model).map fun p => calculateCostUSD m.usage p)
    ∧ (∀ m ∈ (codexAggregate events issues0).models, lookupCodexPricing m.model = none →
        (codexAggregate events issues0).issues.count (pricingIssue m.model)
          = issues0.count (pricingIssue m.model) + 1) := by
  have hcost : ∀ m ∈ (codexAggregate events issues0).models,
      m.costUSD = (lookupCodexPricing m.model).map fun p => calculateCostUSD m.usage p := by
    intro m hm
    rcases mem_codexAggregate_models.mp hm with ⟨entry, _, hb⟩
    rw [← hb]
    rfl
  refine ⟨?_, ?_, hcost, ?_⟩
  · rw [codexAggregate_costUSD]
    constructor
    · intro h
      by_cases hc : (((perModelFold events).2.map buildModelSummary).all
            fun s => s.costUSD.isSome)
          ∧ 0 < ((perModelFold events).2.map buildModelSummary).length
      · constructor
        · intro hnil
          have := congrArg List.length (codexAggregate_models events issues0 ▸ hnil)
          rw [(sortSummaries_perm _).length_eq] at this
          rw [this] at hc
          exact absurd hc.2 (by simp)
        · intro m hm
          rcases mem_codexAggregate_models.mp hm with ⟨entry, hentry, hb⟩
          have hall := List.all_eq_true.mp hc.1 (buildModelSummary entry)
            (List.mem_map_of_mem _ hentry)
          rw [hb] at hall
          rw [hcost m hm] at hall
          simpa using hall
      · rw [if_neg hc] at h
        cases h
    · rintro ⟨hne, hall⟩
      have hlen : 0 < ((perModelFold events).2.map buildModelSummary).length := by
        have hlen' : 0 < (codexAggregate events issues0).models.length :=
          List.length_pos.mpr hne
        rw [codexAggregate_models, (sortSummaries_perm _).length_eq] at hlen'
        exact hlen'
      have hallb : (((perModelFold events).2.map buildModelSummary).all
          fun s => s.costUSD.isSome) = true := by
        apply List.all_eq_true.mpr
        intro s hs
        have hs' : s ∈ (codexAggregate events issues0).models := by
          rw [codexAggregate_models, (sortSummaries_perm _).mem_iff]
          exact hs
        rw [hcost s hs']
        simpa using hall s hs'
      rw [if_pos ⟨hallb, hlen⟩]
      rfl
  · rw [codexAggregate_totalTokens_def]
    show (events.foldl perModelStep (createEmptyUsage, [])).1.totalTokens = _
    rw [(perModelFold_go_sum events (createEmptyUsage, [])).1]
    rw [show (addUsage createEmptyUsage (sumUsage (events.map fun e => e.usage))).totalTokens
        = (sumUsage (events.map fun e => e.usage)).totalTokens by
      simp [addUsage, createEmptyUsage]]
    rw [sumUsage_totalTokens, List.map_map]
    rfl
  · intro m hm hun
    rcases mem_codexAggregate_models.mp hm with ⟨entry, hentry, hb⟩
    have hkeys : m.model ∈ (perModelFold events).2.map Prod.fst := by
      rw [← hb]
      exact List.mem_map_of_mem _ hentry
    have hnd : (((perModelFold events).2.map Prod.fst).Nodup) :=
      perModelFold_go_keys_nodup events (createEmptyUsage, []) (by simp)
    rw [codexAggregate_issues, List.count_append,
      count_pricingIssue_mem _ _ hnd hkeys hun]

/-- C3 witness: the spec's scenario — a priced `gpt-5-mini` group next
to an unpriced `made-up-model-9` group omits the overall cost, keeps the
per-model data, and records exactly one issue naming the unpriced
model. -/
theorem codex_cost_omission_on_unpriced_model_witness :
    (codexAggregate mixedPricingEvents []).costUSD.isSome = false
      ∧ (codexAggregate mixedPricingEvents []).totalTokens = 2515
      ∧ (codexAggregate mixedPricingEvents []).issues.count (pricingIssue "made-up-model-9")
          = 1 := by
  have h := codex_cost_omission_on_unpriced_model mixedPricingEvents []
  have hun : lookupCodexPricing "made-up-model-9" = none := by
    norm_num +decide [lookupCodexPricing, strToLower, charToLower, CODEX_MODEL_ALIASES,
      CODEX_MODEL_PRICING]
  have hmem : ({ model := "made-up-model-9",
                 usage := { inputTokens := 10, cachedInputTokens := 0, outputTokens := 5,
                            reasoningOutputTokens := 0, totalTokens := 15 },
                 costUSD := none, isFallbackModel := false } : CodexModelUsageSummary)
      ∈ (codexAggregate mixedPricingEvents []).models := by
    have hmodels : (codexAggregate mixedPricingEvents []).models =
        [{ model := "gpt-5-mini",
           usage := { inputTokens := 1000, cachedInputTokens := 200, outputTokens := 1500,
                      reasoningOutputTokens := 0, totalTokens := 2500 },
           costUSD := some (873 / 250000), isFallbackModel := false },
         { model := "made-up-model-9",
           usage := { inputTokens := 10, cachedInputTokens := 0, outputTokens := 5,
                      reasoningOutputTokens := 0, totalTokens := 15 },
           costUSD := none, isFallbackModel := false }] := by
      norm_num +decide [codexAggregate, perModelFold, perModelStep, perModelGet, perModelSet,
        buildModelSummary, lookupCodexPricing, strToLower, charToLower, CODEX_MODEL_ALIASES,
        CODEX_MODEL_PRICING, calculateCostUSD, MILLION, sortSummaries, mixedPricingEvents,
        addUsage, createEmptyUsage, pricingIssue, min_def, List.filterMap_cons, Function.comp,
        List.insertionSort, List.orderedInsert]
    rw [hmodels]
    simp
  refine ⟨?_, ?_, ?_⟩
  · cases hc : (codexAggregate mixedPricingEvents []).costUSD.isSome with
    | false => rfl
    | true =>
      have h2 := (h.1.mp hc).2 _ hmem
      rw [hun] at h2
      cases h2
  · rw [h.2.1]
    norm_num [mixedPricingEvents]
  · have h4 := h.2.2.2 _ hmem hun
    rw [h4]
    rfl

/-! ## C1 — cumulative deltas telescope to the final total -/

theorem usageLe_sub_add (p t : RawCodexUsage) (h : usageLe p t) :
    addUsage p (subtractCodexUsage t (some p)) = t := by
  obtain ⟨h1, h2, h3, h4, h5⟩ := h
  ext
  · show p.inputTokens + max 0 (t.inputTokens - p.inputTokens) = t.inputTokens
    rw [max_eq_right (sub_nonneg.mpr h1)]; ring
  · show p.cachedInputTokens + max 0 (t.cachedInputTokens - p.cachedInputTokens)
      = t.cachedInputTokens
    rw [max_eq_right (sub_nonneg.mpr h2)]; ring
  · show p.outputTokens + max 0 (t.outputTokens - p.outputTokens) = t.outputTokens
    rw [max_eq_right (sub_nonneg.mpr h3)]; ring
  · show p.reasoningOutputTokens
        + max 0 (t.reasoningOutputTokens - p.reasoningOutputTokens)
      = t.reasoningOutputTokens
    rw [max_eq_right (sub_nonneg.mpr h4)]; ring
  · show p.totalTokens + max 0 (t.totalTokens - p.totalTokens) = t.totalTokens
    rw [max_eq_right (sub_nonneg.mpr h5)]; ring

theorem subtract_empty_of_le (p t : RawCodexUsage) (h : usageLe p t)
    (he : isUsageEmpty (subtractCodexUsage t (some p)) = true) : t = p := by
  rw [isUsageEmpty_iff] at he
  obtain ⟨h1, h2, h3, h4, h5⟩ := h
  have e1 : max 0 (t.inputTokens - p.inputTokens) = 0 :=
    congrArg RawCodexUsage.inputTokens he
  have e2 : max 0 (t.cachedInputTokens - p.cachedInputTokens) = 0 :=
    congrArg RawCodexUsage.cachedInputTokens he
  have e3 : max 0 (t.outputTokens - p.outputTokens) = 0 :=
    congrArg RawCodexUsage.outputTokens he
  have e4 : max 0 (t.reasoningOutputTokens - p.reasoningOutputTokens) = 0 :=
    congrArg RawCodexUsage.reasoningOutputTokens he
  have e5 : max 0 (t.totalTokens - p.totalTokens) = 0 :=
    congrArg RawCodexUsage.totalTokens he
  ext
  · have := max_eq_left_iff.mp e1
    linarith
  · have := max_eq_left_iff.mp e2
    linarith
  · have := max_eq_left_iff.mp e3
    linarith
  · have := max_eq_left_iff.mp e4
    linarith
  · have := max_eq_left_iff.mp e5
    linarith

theorem emitTokenEvent_previousTotals (s1 : CodexParseState) (ts : ℚ) (em : Option String)
    (u : RawCodexUsage) :
    (emitTokenEvent s1 ts em u).previousTotals = s1.previousTotals := by
  cases em with
  | some m => rfl
  | none =>
    obtain ⟨ev, iss, pt, cm, cf, lf⟩ := s1
    cases cm with
    | some m => rfl
    | none => rfl

theorem updatePreviousTotals_prev_of_some (s : CodexParseState) (r : CodexRecord)
    (t : RawCodexUsage) (ht : normalizeCodexUsage (lineTotalJson r) = some t) :
    (updatePreviousTotals s r).previousTotals = some t := by
  unfold updatePreviousTotals
  rw [ht]

theorem fileTotals_cons_none (ls : List (Option CodexRecord)) :
    fileTotals (none :: ls) = fileTotals ls := by
  simp [fileTotals, List.filterMap_cons]

theorem fileTotals_cons_not_token (r : CodexRecord) (ls : List (Option CodexRecord))
    (h : isTokenCountLine r = false) : fileTotals (some r :: ls) = fileTotals ls := by
  simp [fileTotals, List.filterMap_cons, h]

theorem fileTotals_cons_token (r : CodexRecord) (ls : List (Option CodexRecord))
    (t : RawCodexUsage) (h : isTokenCountLine r = true)
    (ht : normalizeCodexUsage (lineTotalJson r) = some t) :
    fileTotals (some r :: ls) = t :: fileTotals ls := by
  simp [fileTotals, List.filterMap_cons, h, ht]

theorem codexStep_not_token (s : CodexParseState) (line : Option CodexRecord)
    (h : ∀ r, line = some r → isTokenCountLine r = false) :
    (codexStep s line).events = s.events
      ∧ (codexStep s line).previousTotals = s.previousTotals := by
  cases line with
  | none => exact ⟨rfl, rfl⟩
  | some r =>
    have hr := h r rfl
    simp only [codexStep]
    by_cases h1 : r.rtype = some "turn_context"
    · rw [if_pos h1]
      cases r.payload.bind extractCodexModel with
      | some m => exact ⟨rfl, rfl⟩
      | none => exact ⟨rfl, rfl⟩
    · rw [if_neg h1]
      by_cases h2 : r.rtype = some "event_msg"
      · rw [if_pos h2]
        by_cases h3 : (r.payload.bind fun p => p.ptype) = some "token_count"
        · rw [if_pos h3]
          cases hts : r.timestamp with
          | none => exact ⟨rfl, rfl⟩
          | some ts =>
            exfalso
            simp [isTokenCountLine, h2, h3, hts] at hr
        · rw [if_neg h3]; exact ⟨rfl, rfl⟩
      · rw [if_neg h2]; exact ⟨rfl, rfl⟩

theorem codexStep_token_cum (s : CodexParseState) (r : CodexRecord) (ts : ℚ)
    (t : RawCodexUsage)
    (h2 : r.rtype = some "event_msg")
    (h3 : (r.payload.bind fun p => p.ptype) = some "token_count")
    (hts : r.timestamp = some ts)
    (hlast : lineLastJson r = none)
    (htot : normalizeCodexUsage (lineTotalJson r) = some t) :
    (codexStep s (some r)).previousTotals = some t
    ∧ ((isUsageEmpty (subtractCodexUsage t s.previousTotals) = true
          ∧ (codexStep s (some r)).events = s.events)
      ∨ (isUsageEmpty (subtractCodexUsage t s.previousTotals) = false
          ∧ ∃ e : TokenUsageEvent, (codexStep s (some r)).events = s.events ++ [e]
              ∧ e.usage = subtractCodexUsage t s.previousTotals)) := by
  have h1 : ¬r.rtype = some "turn_context" := by
    rw [h2]; decide
  have hu : tokenLineUsage s r = some (subtractCodexUsage t s.previousTotals) := by
    unfold tokenLineUsage
    rw [hlast, htot]
    rfl
  simp only [codexStep]
  rw [if_neg h1, if_pos h2, if_pos h3, hts]
  simp only [hu]
  by_cases he : isUsageEmpty (subtractCodexUsage t s.previousTotals) = true
  · rw [if_pos he]
    exact ⟨updatePreviousTotals_prev_of_some s r t htot,
      Or.inl ⟨he, updatePreviousTotals_events s r⟩⟩
  · rw [if_neg he]
    rcases emitTokenEvent_events (updatePreviousTotals s r) ts
      (r.payload.bind extractCodexModel) (subtractCodexUsage t s.previousTotals)
      with ⟨e, hev, hu', _, _⟩
    refine ⟨?_, Or.inr ⟨Bool.eq_false_iff.mpr he, e, ?_, hu'⟩⟩
    · rw [emitTokenEvent_previousTotals, updatePreviousTotals_prev_of_some s r t htot]
    · rw [hev, updatePreviousTotals_events]

theorem parseCodexGo_cum_sum :
    ∀ (lines : List (Option CodexRecord)) (s : CodexParseState),
      (∀ l ∈ lines, cumulativeOnlyLine l) →
      List.Chain' usageLe (s.previousTotals.toList ++ fileTotals lines) →
      sumUsage (s.events.map fun e => e.usage) = s.previousTotals.getD createEmptyUsage →
      sumUsage ((parseCodexGo s lines).events.map fun e => e.usage)
          = (parseCodexGo s lines).previousTotals.getD createEmptyUsage
        ∧ (parseCodexGo s lines).previousTotals
          = (s.previousTotals.toList ++ fileTotals lines).getLast? := by
  intro lines
  induction lines with
  | nil =>
    intro s _ _ hinv
    refine ⟨hinv, ?_⟩
    cases hp : s.previousTotals with
    | none => simp [parseCodexGo, fileTotals, hp]
    | some p => simp [parseCodexGo, fileTotals, hp]
  | cons l ls ih =>
    intro s hcum hchain hinv
    cases l with
    | none =>
      have hpres := codexStep_not_token s none fun r hr => Option.noConfusion hr
      have h1 := ih (codexStep s none)
        (fun x hx => hcum x (List.mem_cons_of_mem _ hx))
        (by rw [hpres.2]; rw [fileTotals_cons_none] at hchain; exact hchain)
        (by rw [hpres.1, hpres.2]; exact hinv)
      refine ⟨h1.1, ?_⟩
      rw [fileTotals_cons_none]
      rw [hpres.2] at h1
      exact h1.2
    | some r =>
      by_cases htok : isTokenCountLine r = true
      · have hcumr := hcum (some r) (List.mem_cons_self _ _) r rfl htok
        obtain ⟨hlast, hsome⟩ := hcumr
        obtain ⟨j, hj⟩ := Option.isSome_iff_exists.mp hsome
        obtain ⟨t, ht⟩ : ∃ t, normalizeCodexUsage (lineTotalJson r) = some t := by
          rw [hj]; exact ⟨_, rfl⟩
        have hflds : isTokenCountLine r = true := htok
        have hparts : (r.rtype = some "event_msg"
            ∧ (r.payload.bind fun p => p.ptype) = some "token_count")
            ∧ r.timestamp.isSome = true := by
          simpa [isTokenCountLine] using hflds
        obtain ⟨ts, htsEq⟩ := Option.isSome_iff_exists.mp hparts.2
        rcases codexStep_token_cum s r ts t hparts.1.1 hparts.1.2 htsEq hlast ht
          with ⟨hprev, hcase⟩
        have hft : fileTotals (some r :: ls) = t :: fileTotals ls :=
          fileTotals_cons_token r ls t htok ht
        cases hp : s.previousTotals with
        | none =>
          have hchain' : List.Chain' usageLe (t :: fileTotals ls) := by
            rw [hft, hp] at hchain
            simpa using hchain
          have hinv' : sumUsage ((codexStep s (some r)).events.map fun e => e.usage)
              = (codexStep s (some r)).previousTotals.getD createEmptyUsage := by
            rw [hprev]
            rcases hcase with ⟨he, hev⟩ | ⟨he, e, hev, hu⟩
            · rw [hev, hinv, hp]
              rw [hp] at he
              have : t = createEmptyUsage := by
                rw [isUsageEmpty_iff] at he
                exact he
              rw [this]
              rfl
            · rw [hev, List.map_append, List.map_cons, List.map_nil,
                sumUsage_append_single, hinv, hp, hu, hp]
              show addUsage createEmptyUsage t = t
              exact addUsage_empty_left t
          have h1 := ih (codexStep s (some r))
            (fun x hx => hcum x (List.mem_cons_of_mem _ hx))
            (by rw [hprev]; simpa using hchain') hinv'
          refine ⟨h1.1, ?_⟩
          show (parseCodexGo (codexStep s (some r)) ls).previousTotals = _
          rw [h1.2, hprev, hft]
          simp
        | some p =>
          have hchainc : usageLe p t ∧ List.Chain' usageLe (t :: fileTotals ls) := by
            rw [hft, hp] at hchain
            simp only [Option.toList_some, List.singleton_append] at hchain
            exact List.chain'_cons.mp hchain
          have hinv' : sumUsage ((codexStep s (some r)).events.map fun e => e.usage)
              = (codexStep s (some r)).previousTotals.getD createEmptyUsage := by
            rw [hprev]
            rcases hcase with ⟨he, hev⟩ | ⟨he, e, hev, hu⟩
            · rw [hev, hinv, hp]
              rw [hp] at he
              have := subtract_empty_of_le p t hchainc.1 he
              rw [this]
            · rw [hev, List.map_append, List.map_cons, List.map_nil,
                sumUsage_append_single, hinv, hp, hu, hp]
              show addUsage p (subtractCodexUsage t (some p)) = t
              exact usageLe_sub_add p t hchainc.1
          have h1 := ih (codexStep s (some r))
            (fun x hx => hcum x (List.mem_cons_of_mem _ hx))
            (by rw [hprev]; simpa using hchainc.2) hinv'
          refine ⟨h1.1, ?_⟩
          show (parseCodexGo (codexStep s (some r)) ls).previousTotals = _
          rw [h1.2, hprev, hft]
          simp [List.getLast?_cons_cons]
      · have htok' : isTokenCountLine r = false := Bool.eq_false_iff.mpr htok
        have hpres := codexStep_not_token s (some r) fun r' hr' => by
          injection hr' with h
          rw [← h]
          exact htok'
        have h1 := ih (codexStep s (some r))
          (fun x hx => hcum x (List.mem_cons_of_mem _ hx))
          (by rw [hpres.2]; rw [fileTotals_cons_not_token r ls htok'] at hchain; exact hchain)
          (by rw [hpres.1, hpres.2]; exact hinv)
        refine ⟨h1.1, ?_⟩
        rw [fileTotals_cons_not_token r ls htok']
        rw [hpres.2] at h1
        exact h1.2

/-- C1: for a Codex session whose token-count events carry only
cumulative `total_token_usage` telemetry, as long as the normalized
cumulative snapshots are component-wise monotone (the regime in which
the zero-floor clamping of `max(0, current − previous)` never bites),
the per-event deltas reconstructed by `parseCodexSession` sum, over all
emitted events, to the final cumulative total, regardless of how many
events are in between. -/
theorem codex_cumulative_deltas_sum (lines : List (Option CodexRecord))
    (hcum : ∀ l ∈ lines, cumulativeOnlyLine l)
    (hmono : List.Chain' usageLe (fileTotals lines)) :
    sumUsage ((parseCodexSession lines).events.map fun e => e.usage)
      = (fileTotals lines).getLast?.getD createEmptyUsage := by
  rcases parseCodexGo_cum_sum lines initCodexParseState hcum
    (by simpa [initCodexParseState] using hmono)
    (by simp [initCodexParseState, sumUsage_nil]) with ⟨h1, h2⟩
  have hev : (parseCodexSession lines).events
      = (parseCodexGo initCodexParseState lines).events := rfl
  rw [hev, h1, h2]
  simp [initCodexParseState]

/-- C1 witness: a two-event cumulative-only session with totals 5 then
9 emits deltas summing to the final total 9. -/
theorem codex_cumulative_deltas_sum_witness :
    sumUsage ((parseCodexSession sessionCumulative).events.map fun e => e.usage)
      = { inputTokens := 9, cachedInputTokens := 0, outputTokens := 0,
          reasoningOutputTokens := 0, totalTokens := 9 } := by
  have hft : fileTotals sessionCumulative =
      [{ inputTokens := 5, cachedInputTokens := 0, outputTokens := 0,
         reasoningOutputTokens := 0, totalTokens := 5 },
       { inputTokens := 9, cachedInputTokens := 0, outputTokens := 0,
         reasoningOutputTokens := 0, totalTokens := 9 }] := by
    norm_num +decide [fileTotals, sessionCumulative, cumTokenLine, cumUsageJson,
      isTokenCountLine, lineTotalJson, normalizeCodexUsage, asPositiveNumber,
      List.filterMap_cons]
  have h := codex_cumulative_deltas_sum sessionCumulative
    (by
      intro l hl r hr htok
      rcases List.mem_cons.mp hl with rfl | hl
      · injection hr with h'
        rw [← h']
        exact ⟨rfl, rfl⟩
      rcases List.mem_cons.mp hl with rfl | hl
      · injection hr with h'
        rw [← h']
        exact ⟨rfl, rfl⟩
      · simp at hl)
    (by
      rw [hft]
      refine List.chain'_cons.mpr ⟨?_, List.chain'_singleton _⟩
      refine ⟨by norm_num, by norm_num, by norm_num, by norm_num, by norm_num⟩)
  rw [h, hft]
  rfl

end Ccusage
